import Mathlib

/-!
# SSD1306 two-tone OLED driver: framebuffer, rasteriser, text and command channel

A shallow embedding of `src/ssd1306/ssd1306.cpp` and `ssd1306.hpp`.

* `uint8_t` values are natural numbers; every place where the C++ code narrows
  a wider intermediate back to eight bits is an explicit `% 256` (`toUInt8`,
  `toInt8` for the signed case).
* The driver object is the record `ssd1306`; a member function takes the record
  and returns the updated one.
* `display_buffer_` is the 385-byte array of the class, `screen_buffer_` is the
  alias that starts at its byte 1.
* A member function that can stop at an `assert`, divide by zero or loop for ever
  returns `Except fault`; the older `line` and `rectFill` return `Option`, `none`
  standing for a loop that is still running.
* The bus master is the list `i2c_` of the transfers submitted so far; the font
  tables, which are not among the sources, are a parameter `fonts_`.
-/

namespace embdrv

/-! ## Definitions -/

/-- Modelled from the spec: the two colours of the display base class
(`basic_display.hpp` is not among the sources); "off" is black, "on" is white. -/
inductive color where
  | black
  | white
deriving DecidableEq

/-- Modelled from the spec: the two draw modes of the display base class
(`basic_display.hpp` is not among the sources); overwrite is `normal`. -/
inductive mode where
  | normal
  | XOR
deriving DecidableEq

/-- Modelled from the spec: the `SET_BIT` helper of `bits/bits.hpp`, which is not
among the sources; `SET_BIT(n)` is the word with only bit `n` set. -/
def SET_BIT (n : Nat) : Nat := 1 <<< n

/-- Narrowing conversion of a C++ `int` to `uint8_t`. -/
def toUInt8 (z : Int) : Nat := (z % 256).toNat

/-- Narrowing conversion of a C++ `int` to `int8_t` (two's complement). -/
def toInt8 (z : Int) : Int := (z + 128) % 256 - 128

/-- Bit pattern of `~v` for a non-negative 32-bit `int` value `v`. -/
def INT_NOT (v : Nat) : Nat := (2 ^ 32 - 1) ^^^ v

/-- Modelled from the spec: the direction of a bus transfer (`driver/i2c.hpp` is not
among the sources). -/
inductive operation where
  | write
  | read
deriving DecidableEq

/-- Modelled from the spec: a transfer request as handed to the bus master
(`driver/i2c.hpp` is not among the sources): direction, bus address, and the
`tx_size` bytes that `tx_buffer` points to when the request is submitted. -/
structure op_t where
  op : operation
  address : Nat
  tx_size : Nat
  tx_buffer : List Nat
deriving DecidableEq

/-- Modelled from the spec: the two font tables held by the static member `fonts_`,
each a read-only byte table addressed by offset (`font/font5x7.h` and
`font/font8x16.h` are not among the sources). -/
structure font_tables where
  font5x7 : Nat → Nat
  font8x16 : Nat → Nat

/-- The data members of the driver class, `ssd1306.hpp` lines 186-216, with the
draw colour and draw mode kept by the display base class (white and overwrite at
construction). The member `i2c_` refers to the bus master: it is held here as the
list of the transfers submitted to it so far, oldest first. -/
structure ssd1306 where
  fontWidth_ : Nat := 0
  fontHeight_ : Nat := 0
  fontType_ : Nat := 0
  fontStartChar_ : Nat := 0
  fontTotalChar_ : Nat := 0
  fontMapWidth_ : Nat := 0
  cursorX_ : Nat := 0
  cursorY_ : Nat := 0
  i2c_addr_ : Nat := 0
  display_buffer_ : List Nat := []
  color_ : color := color.white
  mode_ : mode := mode.normal
  i2c_ : List op_t := []
deriving DecidableEq

/-- The ways in which a call fails to return normally. -/
inductive fault where
  /-- A failed `assert`, with the driver state at the moment it fired. -/
  | assertion (s : ssd1306)
  /-- A bounds-checked `std::array::at` with an index beyond the array. -/
  | out_of_range
  /-- An integer division or remainder by zero. -/
  | division_by_zero
  /-- A loop whose exit condition never becomes false. -/
  | nontermination
deriving DecidableEq

namespace ssd1306

def SCREEN_WIDTH : Nat := 64

def SCREEN_HEIGHT : Nat := 48

def SCREEN_BUFFER_SIZE : Nat := (SCREEN_WIDTH * SCREEN_HEIGHT) / 8

def BITS_PER_ROW : Nat := 8

def DEFAULT_SSD1306_I2C_ADDR : Nat := 0x3C

/-- The constructor: a zeroed 385-byte array whose byte 0 is the data marker. -/
def ctor (i2c_addr : Nat) : ssd1306 :=
  { i2c_addr_ := i2c_addr
    display_buffer_ := (List.replicate (SCREEN_BUFFER_SIZE + 1) 0).set 0 0x40 }

/-- Read of `screen_buffer_[i]`, that is of `display_buffer_[i + 1]`. -/
def screen_buffer_ (s : ssd1306) (i : Nat) : Nat :=
  s.display_buffer_.getD (i + 1) 0

/-- Store to `screen_buffer_[i]`, that is to `display_buffer_[i + 1]`. -/
def screen_store (s : ssd1306) (i v : Nat) : ssd1306 :=
  { s with display_buffer_ := s.display_buffer_.set (i + 1) v }

/-- The class invariant of the array member: 385 cells, each an 8-bit value. -/
def wf (s : ssd1306) : Prop :=
  s.display_buffer_.length = SCREEN_BUFFER_SIZE + 1 ∧ ∀ b ∈ s.display_buffer_, b < 256

instance (s : ssd1306) : Decidable s.wf := by
  unfold wf
  exact inferInstance

/-- The state of pixel `(x, y)`: bit `y % 8` of `screen_buffer_[x + (y / 8) * 64]`,
set when the pixel is lit. -/
def lit (s : ssd1306) (x y : Nat) : Bool :=
  (s.screen_buffer_ (x + (y / BITS_PER_ROW) * SCREEN_WIDTH)).testBit (y % BITS_PER_ROW)

/-- Member `ssd1306::pixel`, `ssd1306.cpp` lines 281-303. -/
def pixel (s : ssd1306) (x y : Nat) (c : color) (m : mode) : ssd1306 :=
  if x ≥ SCREEN_WIDTH ∨ y ≥ SCREEN_HEIGHT then
    s
  else if m = mode.XOR ∧ c = color.white then
    s.screen_store (x + (y / BITS_PER_ROW) * SCREEN_WIDTH)
      ((s.screen_buffer_ (x + (y / BITS_PER_ROW) * SCREEN_WIDTH)
          ^^^ SET_BIT (y % BITS_PER_ROW)) % 256)
  else if c = color.white then
    s.screen_store (x + (y / BITS_PER_ROW) * SCREEN_WIDTH)
      ((s.screen_buffer_ (x + (y / BITS_PER_ROW) * SCREEN_WIDTH)
          ||| SET_BIT (y % BITS_PER_ROW)) % 256)
  else
    s.screen_store (x + (y / BITS_PER_ROW) * SCREEN_WIDTH)
      ((s.screen_buffer_ (x + (y / BITS_PER_ROW) * SCREEN_WIDTH)
          &&& INT_NOT (SET_BIT (y % BITS_PER_ROW))) % 256)

/-- The libc call `memset(buf + off, c, n)` on an array held as a list. -/
def memset (buf : List Nat) (off c n : Nat) : List Nat :=
  buf.take off ++ List.replicate n c ++ buf.drop (off + n)

/-- The libc call `memcpy(buf + off, src, n)` on arrays held as lists. -/
def memcpy (buf : List Nat) (off : Nat) (src : List Nat) (n : Nat) : List Nat :=
  buf.take off ++ src.take n ++ buf.drop (off + n)

/-- Member `ssd1306::clear(uint8_t c)`, `ssd1306.cpp` lines 259-262. -/
def clear_uint8 (s : ssd1306) (c : Nat) : ssd1306 :=
  { s with display_buffer_ := memset s.display_buffer_ 1 c SCREEN_BUFFER_SIZE }

/-- Member `ssd1306::clear()`, `ssd1306.cpp` lines 254-257. -/
def clear (s : ssd1306) : ssd1306 :=
  s.clear_uint8 0

/-- Member `ssd1306::drawBitmap`, `ssd1306.cpp` lines 569-572. -/
def drawBitmap (s : ssd1306) (bitmap : List Nat) : ssd1306 :=
  { s with display_buffer_ := memcpy s.display_buffer_ 1 bitmap SCREEN_BUFFER_SIZE }

/-- The `for` loop of `ssd1306::line`, `ssd1306.cpp` lines 338-354: the arguments of
the `pixel` calls it makes, in order. The first argument bounds the number of
iterations; `none` means the bound was reached with the loop still running. -/
def line_loop (steep : Bool) (x1 dx dy : Nat) (ystep : Int) :
    Nat → Nat → Nat → Int → Option (List (Nat × Nat))
  | 0, _, _, _ => none
  | fuel + 1, x0, y0, err =>
    if x0 < x1 then
      let p : Nat × Nat := if steep then (y0, x0) else (x0, y0)
      let err1 : Int := toInt8 (err - (dy : Int))
      if err1 < 0 then
        (line_loop steep x1 dx dy ystep fuel (toUInt8 ((x0 : Int) + 1))
          (toUInt8 ((y0 : Int) + ystep)) (toInt8 (err1 + (dx : Int)))).map (fun ps => p :: ps)
      else
        (line_loop steep x1 dx dy ystep fuel (toUInt8 ((x0 : Int) + 1)) y0 err1).map
          (fun ps => p :: ps)
    else
      some []

/-- The `pixel` calls of `ssd1306::line`, `ssd1306.cpp` lines 306-355, in order.
The loop counter is a `uint8_t` running below another `uint8_t`, so 256 bounds
the number of iterations. -/
def line_pixels (x0 y0 x1 y1 : Nat) : Option (List (Nat × Nat)) :=
  let steep : Bool := decide (Int.natAbs ((y1 : Int) - y0) > Int.natAbs ((x1 : Int) - x0))
  let a0 := if steep then y0 else x0
  let b0 := if steep then x0 else y0
  let a1 := if steep then y1 else x1
  let b1 := if steep then x1 else y1
  let xs := if a0 > a1 then a1 else a0
  let xe := if a0 > a1 then a0 else a1
  let ys := if a0 > a1 then b1 else b0
  let ye := if a0 > a1 then b0 else b1
  let dx := toUInt8 ((xe : Int) - xs)
  let dy := toUInt8 (Int.natAbs ((ye : Int) - ys))
  let err := toInt8 ((dx >>> 1 : Nat) : Int)
  let ystep : Int := if ys < ye then 1 else -1
  line_loop steep xe dx dy ystep 256 xs ys err

/-- Member `ssd1306::line`: the `pixel` calls of `line_pixels` applied in order. -/
def line (s : ssd1306) (x0 y0 x1 y1 : Nat) (c : color) (m : mode) : Option ssd1306 :=
  (line_pixels x0 y0 x1 y1).map (fun ps => ps.foldl (fun t p => t.pixel p.1 p.2 c m) s)

/-- A call of one of the stroke helpers `lineH` and `lineV` of the display base
class, with its arguments as received by the `uint8_t` parameters. The bodies
of the helpers are in `basic_display.hpp`, which is not among the sources. -/
inductive stroke where
  | lineH (x y width : Nat) (c : color) (m : mode)
  | lineV (x y height : Nat) (c : color) (m : mode)
deriving DecidableEq

/-- Member `ssd1306::rect`, `ssd1306.cpp` lines 357-373: the stroke calls it
makes, in order. -/
def rect (x y width height : Nat) (c : color) (m : mode) : List stroke :=
  let tempHeight : Nat := toUInt8 ((height : Int) - 2)
  [stroke.lineH x y width c m,
   stroke.lineH x (toUInt8 ((y : Int) + height - 1)) width c m] ++
  if tempHeight < 1 then
    []
  else
    [stroke.lineV x (toUInt8 ((y : Int) + 1)) tempHeight c m,
     stroke.lineV (toUInt8 ((x : Int) + width - 1)) (toUInt8 ((y : Int) + 1)) tempHeight c m]

/-- The `for` loop of `ssd1306::rectFill`, `ssd1306.cpp` lines 378-381, entered
with counter `i`: the stroke calls it makes, in order. The first argument bounds
the number of iterations; `none` means the bound was reached with the loop
still running. The bound `x + width` is computed in `int`, the counter is a
`uint8_t`. -/
def rectFill_loop (x y width height : Nat) (c : color) (m : mode) :
    Nat → Nat → Option (List stroke)
  | 0, _ => none
  | fuel + 1, i =>
    if i < x + width then
      (rectFill_loop x y width height c m fuel (toUInt8 ((i : Int) + 1))).map
        (fun l => stroke.lineV i y height c m :: l)
    else
      some []

/-- Member `ssd1306::rectFill`, `ssd1306.cpp` lines 375-382, run for at most
`fuel` iterations of its loop. -/
def rectFill (fuel x y width height : Nat) (c : color) (m : mode) : Option (List stroke) :=
  rectFill_loop x y width height c m fuel x

def font_count_ : Nat := 2

def FONT_HEADER_SIZE : Nat := 6

def i2c_data_byte_ : Nat := 0x40

def I2C_COMMAND_REG : Nat := 0x0

def LCD_PAGE_HEIGHT : Nat := 8

def SET_CONTRAST : Nat := 0x81

def DISPLAY_ALL_ON_RESUME : Nat := 0xA4

def NORMAL_DISPLAY : Nat := 0xA6

def DISPLAY_OFF : Nat := 0xAE

def DISPLAY_ON : Nat := 0xAF

def SET_DISPLAY_OFFSET : Nat := 0xD3

def SET_COMP_INS : Nat := 0xDA

def SET_VCOM_DESELECT : Nat := 0xDB

def SET_DISPLAY_CLOCK_DIV : Nat := 0xD5

def SET_PRECHARGE : Nat := 0xD9

def SET_MULTIPLEX : Nat := 0xA8

def SET_START_LINE : Nat := 0x40

def COM_SCAN_DEC : Nat := 0xC8

def SEG_REMAP : Nat := 0xA0

def CHARGE_PUMP : Nat := 0x8D

def SET_ADDRESSING_MODE : Nat := 0x20

def HORIZONTAL_ADDRESSING_MODE : Nat := 0x0

def SET_COLUMN_ADDRESS : Nat := 0x21

def SET_PAGE_ADDRESS : Nat := 0x22

def ACTIVATE_SCROLL : Nat := 0x2F

def DEACTIVATE_SCROLL : Nat := 0x2E

def RIGHT_HORIZONTAL_SCROLL : Nat := 0x26

def COLUMN_OFFSET : Nat := 32

/-- Member `ssd1306::i2c_write`, `ssd1306.cpp` lines 142-152: one write request to
the bus address of the driver, carrying the first `size` bytes of `buffer`. -/
def i2c_write (s : ssd1306) (buffer : List Nat) (size : Nat) : ssd1306 :=
  { s with i2c_ := s.i2c_ ++ [{ op := operation.write, address := s.i2c_addr_,
                                tx_size := size, tx_buffer := buffer.take size }] }

/-- Member `ssd1306::data`, `ssd1306.cpp` lines 154-170. The transfer buffer comes
from `etl::variant_pool`, a library outside the sources; the embedding follows the
path on which `create` hands out a buffer, the one the `assert` on it lets through. -/
def data (s : ssd1306) (c : Nat) : ssd1306 :=
  s.i2c_write [i2c_data_byte_, c] 2

/-- Member `ssd1306::command(uint8_t)`, `ssd1306.cpp` lines 172-188, on the path on
which the pool hands out a buffer. -/
def command (s : ssd1306) (cmd : Nat) : ssd1306 :=
  s.i2c_write [I2C_COMMAND_REG, cmd] 2

/-- Member `ssd1306::command(uint8_t, uint8_t)`, `ssd1306.cpp` lines 190-207, on the
path on which the pool hands out a buffer. -/
def command_arg (s : ssd1306) (cmd arg1 : Nat) : ssd1306 :=
  s.i2c_write [I2C_COMMAND_REG, cmd, arg1] 3

/-- Member `ssd1306::command(uint8_t, uint8_t, uint8_t)`, `ssd1306.cpp` lines
209-227, on the path on which the pool hands out a buffer. -/
def command_arg2 (s : ssd1306) (cmd arg1 arg2 : Nat) : ssd1306 :=
  s.i2c_write [I2C_COMMAND_REG, cmd, arg1, arg2] 4

/-- Member `ssd1306::display`, `ssd1306.cpp` lines 642-650: one write request for
the whole of `display_buffer_`. -/
def display (s : ssd1306) : ssd1306 :=
  { s with i2c_ := s.i2c_ ++ [{ op := operation.write, address := s.i2c_addr_,
                                tx_size := SCREEN_BUFFER_SIZE + 1,
                                tx_buffer := s.display_buffer_.take (SCREEN_BUFFER_SIZE + 1) }] }

/-- Member `ssd1306::cursor`, `ssd1306.cpp` lines 275-279. -/
def cursor (s : ssd1306) (x y : Nat) : ssd1306 :=
  { s with cursorX_ := x, cursorY_ := y }

/-- Modelled from the spec: the draw-colour setter of the display base class
(`basic_display.hpp` is not among the sources). -/
def drawColor (s : ssd1306) (c : color) : ssd1306 :=
  { s with color_ := c }

/-- Modelled from the spec: the draw-mode setter of the display base class
(`basic_display.hpp` is not among the sources). -/
def drawMode (s : ssd1306) (m : mode) : ssd1306 :=
  { s with mode_ := m }

/-- The bounds-checked access `fonts_.at(type)` to the array of two tables,
`ssd1306.cpp` line 18. -/
def fonts_at (fonts_ : font_tables) : Nat → Option (Nat → Nat)
  | 0 => some fonts_.font5x7
  | 1 => some fonts_.font8x16
  | _ => none

/-- The read `*(fonts_.at(type) + k)` of one `uint8_t` cell of a font table. -/
def font_byte (fonts_ : font_tables) (type k : Nat) : Except fault Nat :=
  match fonts_at fonts_ type with
  | some table => Except.ok (table k % 256)
  | none => Except.error fault.out_of_range

/-- Member `ssd1306::fontType(uint8_t)`, `ssd1306.cpp` lines 652-664: the returned
value and the updated driver. -/
def fontType (fonts_ : font_tables) (s : ssd1306) (type : Nat) : Except fault (Nat × ssd1306) :=
  if type < font_count_ then
    match fonts_at fonts_ type with
    | some table =>
      Except.ok (type, { s with fontType_ := type, fontWidth_ := table 0 % 256,
                                fontHeight_ := table 1 % 256, fontStartChar_ := table 2 % 256,
                                fontTotalChar_ := table 3 % 256,
                                fontMapWidth_ := (table 4 % 256 + table 5 % 256) % 65536 })
    | none => Except.error fault.out_of_range
  else
    Except.error (fault.assertion s)

/-- Member `ssd1306::fontWidth`, `ssd1306.hpp` lines 81-84. -/
def fontWidth (s : ssd1306) : Nat := s.fontWidth_

/-- Member `ssd1306::fontHeight`, `ssd1306.hpp` lines 88-91. -/
def fontHeight (s : ssd1306) : Nat := s.fontHeight_

/-- Member `ssd1306::totalFonts`, `ssd1306.cpp` lines 666-669. -/
def totalFonts : Nat := font_count_

/-- A loop `for (uint8_t i = ...; cond(i); i++) body(i)` entered with counter `i`:
the calls made by the bodies, in order. The first argument bounds the number of
iterations; reaching it is reported as `fault.nontermination`. Where the exit
test depends on the counter alone, 257 iterations are enough for every loop that
exits at all, the counter having only 256 values. -/
def for_uint8 {α : Type} (cond : Nat → Bool) (body : Nat → Except fault (List α)) :
    Nat → Nat → Except fault (List α)
  | 0, _ => Except.error fault.nontermination
  | fuel + 1, i =>
    if cond i then
      match body i with
      | Except.error e => Except.error e
      | Except.ok calls =>
        match for_uint8 cond body fuel (toUInt8 ((i : Int) + 1)) with
        | Except.error e => Except.error e
        | Except.ok rest => Except.ok (calls ++ rest)
    else
      Except.ok []

/-- A sequence of `pixel` calls `(x, y, colour)` in mode `m`, applied in order. -/
def draw (s : ssd1306) (m : mode) (calls : List (Nat × Nat × color)) : ssd1306 :=
  calls.foldl (fun t p => t.pixel p.1 p.2.1 p.2.2 m) s

/-- The colour `c == color::white ? color::black : color::white`. -/
def set_color (c : color) : color :=
  if c = color.white then color.black else color.white

/-- The colour chosen for row `j` of the glyph byte `temp`, `ssd1306.cpp` lines
487-496 and 532-541: the low bit of `temp` after `j` right shifts selects the
foreground colour `c` when set and its complement when clear. -/
def bit_color (temp j : Nat) (c : color) : color :=
  if (temp >>> j) &&& 0x1 = 0 then set_color c else c

/-- The loop over `j` of both glyph renderers, `ssd1306.cpp` lines 485-499 and
530-543, for the glyph byte `temp` drawn at column `px` from row `py` down. -/
def glyph_byte (px py temp : Nat) (c : color) : Except fault (List (Nat × Nat × color)) :=
  for_uint8 (fun j => decide (j < LCD_PAGE_HEIGHT))
    (fun j => Except.ok [(toUInt8 (px : Int), toUInt8 ((py : Int) + j), bit_color temp j c)])
    257 0

/-- The `pixel` calls of `ssd1306::drawCharSingleRow`, `ssd1306.cpp` lines 468-501,
in order. -/
def drawCharSingleRow_pixels (fonts_ : font_tables) (s : ssd1306) (x y character : Nat)
    (c : color) : Except fault (List (Nat × Nat × color)) :=
  for_uint8 (fun i => decide (i < s.fontWidth_ + 1))
    (fun i =>
      match (if i = s.fontWidth_ then Except.ok 0
             else font_byte fonts_ s.fontType_
                    (FONT_HEADER_SIZE + character * s.fontWidth_ + i)) with
      | Except.error e => Except.error e
      | Except.ok temp => glyph_byte (x + i) y temp c) 257 0

/-- Member `ssd1306::drawCharSingleRow`. -/
def drawCharSingleRow (fonts_ : font_tables) (s : ssd1306) (x y character : Nat)
    (c : color) (m : mode) : Except fault ssd1306 :=
  (drawCharSingleRow_pixels fonts_ s x y character c).map (s.draw m)

/-- The `pixel` calls of `ssd1306::drawCharMultiRow`, `ssd1306.cpp` lines 503-546,
in order. The four position variables are `uint16_t`. -/
def drawCharMultiRow_pixels (fonts_ : font_tables) (s : ssd1306) (x y character : Nat)
    (c : color) : Except fault (List (Nat × Nat × color)) :=
  let rowsToDraw : Nat := s.fontHeight_ / BITS_PER_ROW
  if s.fontWidth_ = 0 then
    Except.error fault.division_by_zero
  else
    let charPerBitmapRow : Nat := (s.fontMapWidth_ / s.fontWidth_) % 65536
    if charPerBitmapRow = 0 then
      Except.error fault.division_by_zero
    else
      let charColPositionOnBitmap : Nat := (character % charPerBitmapRow) % 65536
      let charRowPositionOnBitmap : Nat := (character / charPerBitmapRow) % 65536
      let charBitmapStartPosition : Nat :=
        ((charRowPositionOnBitmap * s.fontMapWidth_ * (s.fontHeight_ / BITS_PER_ROW))
          + (charColPositionOnBitmap * s.fontWidth_)) % 65536
      for_uint8 (fun row => decide (row < rowsToDraw))
        (fun row =>
          for_uint8 (fun i => decide (i < s.fontWidth_))
            (fun i =>
              match font_byte fonts_ s.fontType_
                  (FONT_HEADER_SIZE + (charBitmapStartPosition + i + (row * s.fontMapWidth_))) with
              | Except.error e => Except.error e
              | Except.ok temp => glyph_byte (x + i) (y + (row * BITS_PER_ROW)) temp c) 257 0)
        257 0

/-- Member `ssd1306::drawCharMultiRow`. -/
def drawCharMultiRow (fonts_ : font_tables) (s : ssd1306) (x y character : Nat)
    (c : color) (m : mode) : Except fault ssd1306 :=
  (drawCharMultiRow_pixels fonts_ s x y character c).map (s.draw m)

/-- Member `ssd1306::drawChar`, `ssd1306.cpp` lines 550-567. The bound of the
`assert` is computed in `int`. -/
def drawChar (fonts_ : font_tables) (s : ssd1306) (x y character : Nat)
    (c : color) (m : mode) : Except fault ssd1306 :=
  if character ≥ s.fontStartChar_ ∧
      (character : Int) < (s.fontStartChar_ : Int) + (s.fontTotalChar_ : Int) - 1 then
    if s.fontHeight_ / BITS_PER_ROW ≤ 1 then
      drawCharSingleRow fonts_ s x y (toUInt8 ((character : Int) - s.fontStartChar_)) c m
    else
      drawCharMultiRow fonts_ s x y (toUInt8 ((character : Int) - s.fontStartChar_)) c m
  else
    Except.error (fault.assertion s)

/-- Member `ssd1306::putchar`, `ssd1306.cpp` lines 229-246; `10` is the line feed
and `13` the carriage return. -/
def putchar (fonts_ : font_tables) (s : ssd1306) (c : Nat) : Except fault ssd1306 :=
  if c = 10 then
    Except.ok { s with cursorY_ := toUInt8 ((s.cursorY_ : Int) + s.fontHeight_), cursorX_ := 0 }
  else if c ≠ 13 then
    match drawChar fonts_ s s.cursorX_ s.cursorY_ c s.color_ s.mode_ with
    | Except.error e => Except.error e
    | Except.ok t =>
      if ((toUInt8 ((t.cursorX_ : Int) + ((t.fontWidth_ : Int) + 1)) : Nat) : Int)
          > (SCREEN_WIDTH : Int) - (t.fontWidth_ : Int) then
        Except.ok { t with cursorY_ := toUInt8 ((t.cursorY_ : Int) + t.fontHeight_), cursorX_ := 0 }
      else
        Except.ok { t with cursorX_ := toUInt8 ((t.cursorX_ : Int) + ((t.fontWidth_ : Int) + 1)) }
  else
    Except.ok s

/-- The `while` loop of `ssd1306::circle`, `ssd1306.cpp` lines 399-420, entered
with the five `int8_t` variables: the arguments of its `pixel` calls, in order.
The first argument bounds the number of iterations. -/
def circle_loop (x y : Nat) : Nat → Int → Int → Int → Int → Int →
    Except fault (List (Nat × Nat))
  | 0, _, _, _, _, _ => Except.error fault.nontermination
  | fuel + 1, f, ddF_x, ddF_y, x1, y1 =>
    if x1 < y1 then
      let y1a : Int := if f ≥ 0 then toInt8 (y1 - 1) else y1
      let ddF_ya : Int := if f ≥ 0 then toInt8 (ddF_y + 2) else ddF_y
      let fa : Int := if f ≥ 0 then toInt8 (f + ddF_ya) else f
      let x1a : Int := toInt8 (x1 + 1)
      let ddF_xa : Int := toInt8 (ddF_x + 2)
      let fb : Int := toInt8 (fa + ddF_xa)
      match circle_loop x y fuel fb ddF_xa ddF_ya x1a y1a with
      | Except.error e => Except.error e
      | Except.ok rest =>
        Except.ok
          ([(toUInt8 (x + x1a), toUInt8 (y + y1a)), (toUInt8 (x - x1a), toUInt8 (y + y1a)),
            (toUInt8 (x + x1a), toUInt8 (y - y1a)), (toUInt8 (x - x1a), toUInt8 (y - y1a)),
            (toUInt8 (x + y1a), toUInt8 (y + x1a)), (toUInt8 (x - y1a), toUInt8 (y + x1a)),
            (toUInt8 (x + y1a), toUInt8 (y - x1a)), (toUInt8 (x - y1a), toUInt8 (y - x1a))]
            ++ rest)
    else
      Except.ok []

/-- The `pixel` calls of `ssd1306::circle`, `ssd1306.cpp` lines 384-421, in order.
Inside the loop `0 <= x1 < y1 <= 127` and `x1` grows by one per iteration, so 256
bounds the number of iterations. -/
def circle_pixels (x y radius : Nat) : Except fault (List (Nat × Nat)) :=
  let f : Int := toInt8 (1 - toInt8 radius)
  let ddF_x : Int := 1
  let ddF_y : Int := toInt8 (-2 * (radius : Int))
  let x1 : Int := 0
  let y1 : Int := toInt8 radius
  match circle_loop x y 256 f ddF_x ddF_y x1 y1 with
  | Except.error e => Except.error e
  | Except.ok rest =>
    Except.ok
      ([(x, toUInt8 ((y : Int) + radius)), (x, toUInt8 ((y : Int) - radius)),
        (toUInt8 ((x : Int) + radius), y), (toUInt8 ((x : Int) - radius), y)] ++ rest)

/-- Member `ssd1306::circle`: the `pixel` calls of `circle_pixels` applied in order. -/
def circle (s : ssd1306) (x y radius : Nat) (c : color) (m : mode) : Except fault ssd1306 :=
  (circle_pixels x y radius).map (fun ps => ps.foldl (fun t p => t.pixel p.1 p.2 c m) s)

/-- The `while` loop of `ssd1306::circleFill`, `ssd1306.cpp` lines 443-465, entered
with the five `int8_t` variables: the arguments of its `pixel` calls, in order.
The first argument bounds the number of iterations. -/
def circleFill_loop (x y : Nat) : Nat → Int → Int → Int → Int → Int →
    Except fault (List (Nat × Nat))
  | 0, _, _, _, _, _ => Except.error fault.nontermination
  | fuel + 1, f, ddF_x, ddF_y, x1, y1 =>
    if x1 < y1 then
      let y1a : Int := if f ≥ 0 then toInt8 (y1 - 1) else y1
      let ddF_ya : Int := if f ≥ 0 then toInt8 (ddF_y + 2) else ddF_y
      let fa : Int := if f ≥ 0 then toInt8 (f + ddF_ya) else f
      let x1a : Int := toInt8 (x1 + 1)
      let ddF_xa : Int := toInt8 (ddF_x + 2)
      let fb : Int := toInt8 (fa + ddF_xa)
      match for_uint8 (fun i => decide (i ≤ toUInt8 (y + y1a)))
          (fun i => Except.ok [(toUInt8 (x + x1a), i), (toUInt8 (x - x1a), i)])
          257 (toUInt8 (y - y1a)) with
      | Except.error e => Except.error e
      | Except.ok span1 =>
        match for_uint8 (fun i => decide (i ≤ toUInt8 (y + x1a)))
            (fun i => Except.ok [(toUInt8 (x + y1a), i), (toUInt8 (x - y1a), i)])
            257 (toUInt8 (y - x1a)) with
        | Except.error e => Except.error e
        | Except.ok span2 =>
          match circleFill_loop x y fuel fb ddF_xa ddF_ya x1a y1a with
          | Except.error e => Except.error e
          | Except.ok rest => Except.ok (span1 ++ span2 ++ rest)
    else
      Except.ok []

/-- The `pixel` calls of `ssd1306::circleFill` in a mode other than XOR,
`ssd1306.cpp` lines 438-465, in order. -/
def circleFill_pixels (x y radius : Nat) : Except fault (List (Nat × Nat)) :=
  let f : Int := toInt8 (1 - toInt8 radius)
  let ddF_x : Int := 1
  let ddF_y : Int := toInt8 (-2 * (radius : Int))
  let x1 : Int := 0
  let y1 : Int := toInt8 radius
  match for_uint8 (fun i => decide ((i : Int) ≤ (y : Int) + radius))
      (fun i => Except.ok [(x, i)]) 257 (toUInt8 ((y : Int) - radius)) with
  | Except.error e => Except.error e
  | Except.ok span =>
    match circleFill_loop x y 256 f ddF_x ddF_y x1 y1 with
    | Except.error e => Except.error e
    | Except.ok rest => Except.ok (span ++ rest)

/-- Member `ssd1306::circleFill`, `ssd1306.cpp` lines 424-466. -/
def circleFill (s : ssd1306) (x y radius : Nat) (c : color) (m : mode) : Except fault ssd1306 :=
  if m = mode.XOR then
    Except.ok s
  else
    (circleFill_pixels x y radius).map (fun ps => ps.foldl (fun t p => t.pixel p.1 p.2 c m) s)

/-- Member `ssd1306::scrollStop`, `ssd1306.cpp` lines 627-630. -/
def scrollStop (s : ssd1306) : ssd1306 :=
  s.command DEACTIVATE_SCROLL

/-- Member `ssd1306::scrollRight`, `ssd1306.cpp` lines 586-601. -/
def scrollRight (s : ssd1306) (start stop : Nat) : Except fault ssd1306 :=
  if stop < start then
    Except.ok
      ((((((((s.scrollStop.command RIGHT_HORIZONTAL_SCROLL).command 0x00).command start).command
        0x7).command stop).command 0x00).command 0xFF).command ACTIVATE_SCROLL)
  else
    Except.error (fault.assertion s)

/-- Member `ssd1306::stop_`, `ssd1306.cpp` lines 137-140. -/
def stop_ (s : ssd1306) : ssd1306 :=
  s.command DISPLAY_OFF

/-- The command sequence of `ssd1306::start_`, `ssd1306.cpp` lines 93-134, from
`command(DISPLAY_OFF)` to `command(DISPLAY_ON)`. -/
def start_sequence (s : ssd1306) : ssd1306 :=
  let s := s.command DISPLAY_OFF
  let s := s.command_arg SET_DISPLAY_CLOCK_DIV 0x80
  let s := s.command_arg SET_MULTIPLEX 0x2F
  let s := s.command_arg SET_DISPLAY_OFFSET 0x0
  let s := s.command (SET_START_LINE ||| 0x0)
  let s := s.command_arg CHARGE_PUMP 0x14
  let s := s.command NORMAL_DISPLAY
  let s := s.command DISPLAY_ALL_ON_RESUME
  let s := s.command (SEG_REMAP ||| 0x1)
  let s := s.command COM_SCAN_DEC
  let s := s.command_arg SET_COMP_INS 0x12
  let s := s.command_arg SET_CONTRAST 0x08F
  let s := s.command_arg SET_PRECHARGE 0xF1
  let s := s.command_arg SET_VCOM_DESELECT 0x40
  let s := s.command SET_ADDRESSING_MODE
  let s := s.command HORIZONTAL_ADDRESSING_MODE
  let s := s.command_arg2 SET_COLUMN_ADDRESS COLUMN_OFFSET
    (toUInt8 ((COLUMN_OFFSET : Int) + SCREEN_WIDTH - 1))
  let s := s.command_arg2 SET_PAGE_ADDRESS 0 5
  let s := s.clear
  let s := s.display
  s.command DISPLAY_ON

/-- Member `ssd1306::start_`, `ssd1306.cpp` lines 81-135. -/
def start_ (fonts_ : font_tables) (s : ssd1306) : Except fault ssd1306 :=
  match fontType fonts_ s 0 with
  | Except.error e => Except.error e
  | Except.ok r => Except.ok (start_sequence (((r.2.drawColor color.white).drawMode
      mode.normal).cursor 0 0))

/-- The effect of one stroke call, given for each call the positions
`stroke_pixels` that the stroke helper of the base class passes to `pixel`,
in order, with the colour and the mode of the call. -/
def run_stroke (stroke_pixels : stroke → List (Nat × Nat)) (s : ssd1306) : stroke → ssd1306
  | stroke.lineH x y width c m =>
    (stroke_pixels (stroke.lineH x y width c m)).foldl (fun t p => t.pixel p.1 p.2 c m) s
  | stroke.lineV x y height c m =>
    (stroke_pixels (stroke.lineV x y height c m)).foldl (fun t p => t.pixel p.1 p.2 c m) s

/-- The effect of a sequence of stroke calls, in order. -/
def run_strokes (stroke_pixels : stroke → List (Nat × Nat)) (s : ssd1306)
    (calls : List stroke) : ssd1306 :=
  calls.foldl (run_stroke stroke_pixels) s

/-- The driver states that can be reached from the constructor by calls, in any
order and number, of the drawing operations `clear`, `pixel`, `line`, `rect`,
`rectFill`, `circle`, `circleFill`, `drawChar`, `putchar` and `drawBitmap` (on a
bitmap of at least 384 bytes), of the setters `fontType`, `cursor`, `drawColor`
and `drawMode`, and of `display`, `start_` and the command channel. A call
counts when it returns. -/
inductive reachable (fonts_ : font_tables) (stroke_pixels : stroke → List (Nat × Nat)) :
    ssd1306 → Prop where
  | ctor (i2c_addr : Nat) : reachable fonts_ stroke_pixels (ctor i2c_addr)
  | clear {s : ssd1306} : reachable fonts_ stroke_pixels s → reachable fonts_ stroke_pixels s.clear
  | pixel {s : ssd1306} (x y : Nat) (c : color) (m : mode) :
      reachable fonts_ stroke_pixels s → reachable fonts_ stroke_pixels (s.pixel x y c m)
  | line {s t : ssd1306} (x0 y0 x1 y1 : Nat) (c : color) (m : mode) :
      reachable fonts_ stroke_pixels s → s.line x0 y0 x1 y1 c m = some t →
      reachable fonts_ stroke_pixels t
  | rect {s : ssd1306} (x y width height : Nat) (c : color) (m : mode) :
      reachable fonts_ stroke_pixels s →
      reachable fonts_ stroke_pixels (run_strokes stroke_pixels s (rect x y width height c m))
  | rectFill {s : ssd1306} (fuel x y width height : Nat) (c : color) (m : mode)
      (calls : List stroke) :
      reachable fonts_ stroke_pixels s → rectFill fuel x y width height c m = some calls →
      reachable fonts_ stroke_pixels (run_strokes stroke_pixels s calls)
  | circle {s t : ssd1306} (x y radius : Nat) (c : color) (m : mode) :
      reachable fonts_ stroke_pixels s → s.circle x y radius c m = Except.ok t →
      reachable fonts_ stroke_pixels t
  | circleFill {s t : ssd1306} (x y radius : Nat) (c : color) (m : mode) :
      reachable fonts_ stroke_pixels s → s.circleFill x y radius c m = Except.ok t →
      reachable fonts_ stroke_pixels t
  | drawChar {s t : ssd1306} (x y character : Nat) (c : color) (m : mode) :
      reachable fonts_ stroke_pixels s → drawChar fonts_ s x y character c m = Except.ok t →
      reachable fonts_ stroke_pixels t
  | putchar {s t : ssd1306} (c : Nat) :
      reachable fonts_ stroke_pixels s → putchar fonts_ s c = Except.ok t →
      reachable fonts_ stroke_pixels t
  | drawBitmap {s : ssd1306} (bitmap : List Nat) :
      reachable fonts_ stroke_pixels s → SCREEN_BUFFER_SIZE ≤ bitmap.length →
      reachable fonts_ stroke_pixels (s.drawBitmap bitmap)
  | fontType {s : ssd1306} (type : Nat) (r : Nat × ssd1306) :
      reachable fonts_ stroke_pixels s → fontType fonts_ s type = Except.ok r →
      reachable fonts_ stroke_pixels r.2
  | cursor {s : ssd1306} (x y : Nat) :
      reachable fonts_ stroke_pixels s → reachable fonts_ stroke_pixels (s.cursor x y)
  | drawColor {s : ssd1306} (c : color) :
      reachable fonts_ stroke_pixels s → reachable fonts_ stroke_pixels (s.drawColor c)
  | drawMode {s : ssd1306} (m : mode) :
      reachable fonts_ stroke_pixels s → reachable fonts_ stroke_pixels (s.drawMode m)
  | display {s : ssd1306} :
      reachable fonts_ stroke_pixels s → reachable fonts_ stroke_pixels s.display
  | start_ {s t : ssd1306} :
      reachable fonts_ stroke_pixels s → start_ fonts_ s = Except.ok t →
      reachable fonts_ stroke_pixels t
  | i2c_write {s : ssd1306} (buffer : List Nat) (size : Nat) :
      reachable fonts_ stroke_pixels s → reachable fonts_ stroke_pixels (s.i2c_write buffer size)

/-- The layout of the display array that `display` relies on: 385 cells, the first
one holding the data marker. -/
def framed (s : ssd1306) : Prop :=
  s.display_buffer_.length = SCREEN_BUFFER_SIZE + 1 ∧ s.display_buffer_[0]? = some i2c_data_byte_

/-- The `pixel` calls that fill a block of `n` columns by eight rows with its top
left corner at `(x, y)`, column by column and top to bottom, the call for column
`i` and row `j` having the colour `col i j`. -/
def cell_calls (x y n : Nat) (col : Nat → Nat → color) : List (Nat × Nat × color) :=
  (List.range' 0 n).flatMap (fun i =>
    (List.range' 0 8).flatMap (fun j =>
      [(toUInt8 ((x + i : Nat) : Int), toUInt8 ((y : Int) + j), col i j)]))

/-- The eight `pixel` positions that one iteration of the circle loop plots around
the centre `(x, y)` for the offsets `x1` and `y1`, `ssd1306.cpp` lines 411-419,
as received by the `uint8_t` parameters of `pixel`. -/
def octant_points (x y : Nat) (x1 y1 : Int) : List (Nat × Nat) :=
  [(toUInt8 (x + x1), toUInt8 (y + y1)), (toUInt8 (x - x1), toUInt8 (y + y1)),
   (toUInt8 (x + x1), toUInt8 (y - y1)), (toUInt8 (x - x1), toUInt8 (y - y1)),
   (toUInt8 (x + y1), toUInt8 (y + x1)), (toUInt8 (x - y1), toUInt8 (y + x1)),
   (toUInt8 (x + y1), toUInt8 (y - x1)), (toUInt8 (x - y1), toUInt8 (y - x1))]

/-- Reference for the refinement of `circle_loop`: the loop of the midpoint circle
algorithm carried out in unbounded integers, with no narrowing anywhere. For each
iteration it lists the values the iteration assigns, `(f, ddF_x, ddF_y, x1, y1)` at
its end and, last, the intermediate `f` after the optional step of `y1`. The first
argument bounds the number of iterations; `none` means the bound was reached with
the loop still running. -/
def midpoint_steps : Nat → Int → Int → Int → Int → Int →
    Option (List (Int × Int × Int × Int × Int × Int))
  | 0, _, _, _, _, _ => none
  | fuel + 1, f, ddF_x, ddF_y, x1, y1 =>
    if x1 < y1 then
      let y1a : Int := if f ≥ 0 then y1 - 1 else y1
      let ddF_ya : Int := if f ≥ 0 then ddF_y + 2 else ddF_y
      let fa : Int := if f ≥ 0 then f + ddF_ya else f
      let x1a : Int := x1 + 1
      let ddF_xa : Int := ddF_x + 2
      let fb : Int := fa + ddF_xa
      (midpoint_steps fuel fb ddF_xa ddF_ya x1a y1a).map
        (fun rest => (fb, ddF_xa, ddF_ya, x1a, y1a, fa) :: rest)
    else
      some []

/-- Reference for the refinement of `circle_pixels`: the iterations of the midpoint
circle algorithm for radius `r` in unbounded integers, started from `f = 1 - r`,
`ddF_x = 1`, `ddF_y = -2 r`, `x1 = 0`, `y1 = r` and allowed `r` iterations. -/
def midpoint_circle (r : Nat) : Option (List (Int × Int × Int × Int × Int × Int)) :=
  midpoint_steps (r + 1) (1 - (r : Int)) 1 (-2 * (r : Int)) 0 (r : Int)

/-- The range of an `int8_t`. -/
def in_int8 (z : Int) : Bool :=
  decide (-128 ≤ z ∧ z ≤ 127)

/-- The six values of one iteration of `midpoint_steps` all lie in the range of an
`int8_t`. -/
def step_in_int8 (st : Int × Int × Int × Int × Int × Int) : Bool :=
  in_int8 st.1 && in_int8 st.2.1 && in_int8 st.2.2.1 && in_int8 st.2.2.2.1 &&
    in_int8 st.2.2.2.2.1 && in_int8 st.2.2.2.2.2

/-- The check that the reference run for radius `r` ends within `r` iterations
with every value it assigns in the range of an `int8_t`. -/
def midpoint_fits (r : Nat) : Bool :=
  match midpoint_circle r with
  | some steps => decide (steps.length ≤ r) && steps.all step_in_int8
  | none => false

/-- The values that the loop of `ssd1306::line`, `ssd1306.cpp` lines 338-354,
assigns to the `int8_t` error term `err`, each as computed in `int` before it is
narrowed to eight bits, in order: `err - dy` in every iteration and `err + dx` in
the iterations that step `y0`. The first argument bounds the number of
iterations. -/
def line_loop_errs (x1 dx dy : Nat) : Nat → Nat → Int → List Int
  | 0, _, _ => []
  | fuel + 1, x0, err =>
    if x0 < x1 then
      if toInt8 (err - (dy : Int)) < 0 then
        (err - (dy : Int)) :: (toInt8 (err - (dy : Int)) + (dx : Int)) ::
          line_loop_errs x1 dx dy fuel (toUInt8 ((x0 : Int) + 1))
            (toInt8 (toInt8 (err - (dy : Int)) + (dx : Int)))
      else
        (err - (dy : Int)) ::
          line_loop_errs x1 dx dy fuel (toUInt8 ((x0 : Int) + 1)) (toInt8 (err - (dy : Int)))
    else
      []

/-- The values that `ssd1306::line`, `ssd1306.cpp` lines 306-355, assigns to the
`int8_t` error term, before narrowing, in order: the initial `dx >> 1` and then
the values of `line_loop_errs`. -/
def line_errs (x0 y0 x1 y1 : Nat) : List Int :=
  let steep : Bool := decide (Int.natAbs ((y1 : Int) - y0) > Int.natAbs ((x1 : Int) - x0))
  let a0 := if steep then y0 else x0
  let b0 := if steep then x0 else y0
  let a1 := if steep then y1 else x1
  let b1 := if steep then x1 else y1
  let xs := if a0 > a1 then a1 else a0
  let xe := if a0 > a1 then a0 else a1
  let ys := if a0 > a1 then b1 else b0
  let ye := if a0 > a1 then b0 else b1
  let dx := toUInt8 ((xe : Int) - xs)
  let dy := toUInt8 (Int.natAbs ((ye : Int) - ys))
  ((dx >>> 1 : Nat) : Int) :: line_loop_errs xe dx dy 256 xs (toInt8 ((dx >>> 1 : Nat) : Int))

/-- A pair of font tables for worked examples: a single-row table of 5-pixel-wide
glyphs whose first glyph has the columns `0x7E 0x11 0x11 0x11 0x7E`, and the
header of a two-row table of 8-pixel-wide glyphs for the characters 32 to 127. -/
def sample_fonts : font_tables :=
  { font5x7 := fun k => [5, 8, 0, 255, 12, 75, 0x7E, 0x11, 0x11, 0x11, 0x7E].getD k 0
    font8x16 := fun k => [8, 16, 32, 96, 2, 56].getD k 0 }

/-- The freshly constructed driver after `fontType(0)` on `sample_fonts`. -/
def sample_5x7 : ssd1306 :=
  { ctor DEFAULT_SSD1306_I2C_ADDR with
    fontType_ := 0, fontWidth_ := 5, fontHeight_ := 8, fontStartChar_ := 0,
    fontTotalChar_ := 255, fontMapWidth_ := 87 }

/-- The freshly constructed driver after `fontType(1)` on `sample_fonts`. -/
def sample_8x16 : ssd1306 :=
  { ctor DEFAULT_SSD1306_I2C_ADDR with
    fontType_ := 1, fontWidth_ := 8, fontHeight_ := 16, fontStartChar_ := 32,
    fontTotalChar_ := 96, fontMapWidth_ := 58 }

/-- A pair of font tables whose second table holds glyphs of the size of the
panel: header bytes 64 (width), 48 (height), 0 (first character), 255 (number of
characters), 64 and 0 (the two bytes summed into the width of the bitmap). Of the
glyph bytes only the one at offset `6 + 128` is given, as `0xFF`; the others are
zero. -/
def panel_fonts : font_tables :=
  { font5x7 := fun k => [5, 8, 0, 255, 12, 75].getD k 0
    font8x16 := fun k => if k = 134 then 0xFF else [64, 48, 0, 255, 64, 0].getD k 0 }

/-- The freshly constructed driver after `fontType(1)` on `panel_fonts`. -/
def sample_64x48 : ssd1306 :=
  { ctor DEFAULT_SSD1306_I2C_ADDR with
    fontType_ := 1, fontWidth_ := 64, fontHeight_ := 48, fontStartChar_ := 0,
    fontTotalChar_ := 255, fontMapWidth_ := 64 }

end ssd1306

/-! ## Theorems -/

/-! ### Bit-level lemmas for one framebuffer byte -/

theorem testBit_SET_BIT (j k : Nat) : (SET_BIT j).testBit k = decide (j = k) := by
  unfold SET_BIT
  rw [Nat.one_shiftLeft, Nat.testBit_two_pow]

theorem testBit_INT_NOT_SET_BIT (j k : Nat) :
    (INT_NOT (SET_BIT j)).testBit k = (decide (k < 32) ^^ decide (j = k)) := by
  unfold INT_NOT
  rw [Nat.testBit_xor, Nat.testBit_two_pow_sub_one, testBit_SET_BIT]

theorem testBit_xor_byte (b j k : Nat) :
    ((b ^^^ SET_BIT j) % 256).testBit k = (decide (k < 8) && (b.testBit k ^^ decide (j = k))) := by
  have h : (256 : Nat) = 2 ^ 8 := by norm_num
  rw [h, Nat.testBit_mod_two_pow, Nat.testBit_xor, testBit_SET_BIT]

theorem testBit_or_byte (b j k : Nat) :
    ((b ||| SET_BIT j) % 256).testBit k = (decide (k < 8) && (b.testBit k || decide (j = k))) := by
  have h : (256 : Nat) = 2 ^ 8 := by norm_num
  rw [h, Nat.testBit_mod_two_pow, Nat.testBit_or, testBit_SET_BIT]

theorem testBit_andnot_byte (b j k : Nat) :
    ((b &&& INT_NOT (SET_BIT j)) % 256).testBit k
      = (decide (k < 8) && (b.testBit k && (decide (k < 32) ^^ decide (j = k)))) := by
  have h : (256 : Nat) = 2 ^ 8 := by norm_num
  rw [h, Nat.testBit_mod_two_pow, Nat.testBit_and, testBit_INT_NOT_SET_BIT]

namespace ssd1306

/-! ### Framebuffer access lemmas -/

theorem ctor_wf (a : Nat) : (ctor a).wf := by
  refine ⟨by simp only [ctor, List.length_set, List.length_replicate], ?_⟩
  intro b hb
  have hb2 := List.mem_or_eq_of_mem_set hb
  rcases hb2 with h | h
  · rw [List.mem_replicate] at h
    omega
  · omega

theorem index_lt (x y : Nat) (hx : x < 64) (hy : y < 48) : x + (y / 8) * 64 < 384 := by
  omega

theorem screen_buffer_lt (s : ssd1306) (hs : s.wf) (i : Nat) : s.screen_buffer_ i < 256 := by
  unfold screen_buffer_
  rw [List.getD_eq_getElem?_getD]
  cases h : s.display_buffer_[i + 1]? with
  | none => simp
  | some b =>
    simp only [Option.getD_some]
    exact hs.2 b (List.getElem?_mem h)

theorem screen_buffer_store_same (s : ssd1306) (i v : Nat)
    (h : i + 1 < s.display_buffer_.length) : (s.screen_store i v).screen_buffer_ i = v := by
  simp [screen_buffer_, screen_store, List.getD_eq_getElem?_getD, List.getElem?_set, h]

theorem display_buffer_store_other (s : ssd1306) (i v k : Nat) (h : k ≠ i + 1) :
    (s.screen_store i v).display_buffer_[k]? = s.display_buffer_[k]? := by
  simp [screen_store, List.getElem?_set, Ne.symm h]

theorem screen_store_store (s : ssd1306) (i v w : Nat) :
    (s.screen_store i v).screen_store i w = s.screen_store i w := by
  simp [screen_store, List.set_set]

theorem screen_store_self (s : ssd1306) (i : Nat) (h : i + 1 < s.display_buffer_.length) :
    s.screen_store i (s.screen_buffer_ i) = s := by
  have hset : s.display_buffer_.set (i + 1) (s.display_buffer_.getD (i + 1) 0)
      = s.display_buffer_ := by
    apply List.ext_getElem?
    intro n
    by_cases hn : i + 1 = n
    · subst hn
      simp [List.getElem?_set, h, List.getD_eq_getElem?_getD]
    · simp [List.getElem?_set, hn]
  simp only [screen_store, screen_buffer_, hset]

/-! ### Frame lemmas for `pixel` -/

theorem byte_testBit_high (b j : Nat) (hb : b < 256) (hj : 8 ≤ j) : b.testBit j = false := by
  apply Nat.testBit_lt_two_pow
  calc b < 2 ^ 8 := by omega
    _ ≤ 2 ^ j := Nat.pow_le_pow_right (by norm_num) hj

theorem byte_testBit_mask (b j : Nat) (hb : b < 256) :
    (decide (j < 8) && b.testBit j) = b.testBit j := by
  by_cases hj : j < 8
  · simp [hj]
  · simp [hj, byte_testBit_high b j hb (by omega)]

theorem pixel_other_bytes (s : ssd1306) (x y : Nat) (c : color) (m : mode) (k : Nat)
    (hk : k ≠ x + (y / 8) * 64 + 1) :
    (s.pixel x y c m).display_buffer_[k]? = s.display_buffer_[k]? := by
  unfold pixel
  simp only [SCREEN_WIDTH, BITS_PER_ROW]
  split
  · rfl
  · split
    · exact display_buffer_store_other _ _ _ _ hk
    · split
      · exact display_buffer_store_other _ _ _ _ hk
      · exact display_buffer_store_other _ _ _ _ hk

theorem pixel_other_bits (s : ssd1306) (x y : Nat) (c : color) (m : mode) (j : Nat)
    (hs : s.wf) (hx : x < 64) (hy : y < 48) (hj : j ≠ y % 8) :
    ((s.pixel x y c m).screen_buffer_ (x + (y / 8) * 64)).testBit j
      = (s.screen_buffer_ (x + (y / 8) * 64)).testBit j := by
  have hl : x + (y / 8) * 64 + 1 < s.display_buffer_.length := by
    rw [hs.1]; simp only [SCREEN_BUFFER_SIZE, SCREEN_WIDTH, SCREEN_HEIGHT]; omega
  have hnot : ¬ (x ≥ 64 ∨ y ≥ 48) := by omega
  have hb := screen_buffer_lt s hs (x + (y / 8) * 64)
  have hm := byte_testBit_mask (s.screen_buffer_ (x + (y / 8) * 64)) j hb
  have hne : ¬ (y % 8 = j) := fun h => hj h.symm
  cases c <;> cases m <;>
    simp only [pixel, SCREEN_WIDTH, SCREEN_HEIGHT, BITS_PER_ROW, hnot, if_false, if_true,
      and_self, and_true, and_false, true_and, false_and, reduceCtorEq,
      screen_buffer_store_same _ _ _ hl, testBit_or_byte, testBit_andnot_byte,
      testBit_xor_byte, hne, decide_False, Bool.or_false, Bool.xor_false, hm]
  all_goals
    by_cases h8 : j < 8
    · have h32 : j < 32 := by omega
      simp [h8, h32]
    · simp [h8, byte_testBit_high _ j hb (by omega)]

/-! ### The constructed state -/

theorem ctor_length (a : Nat) : (ctor a).display_buffer_.length = 385 := by
  simp only [ctor, List.length_set, List.length_replicate]
  decide

theorem ctor_screen_buffer (a i : Nat) : (ctor a).screen_buffer_ i = 0 := by
  simp only [screen_buffer_, ctor, List.getD_eq_getElem?_getD]
  rw [List.getElem?_set_ne (by omega)]
  cases h : (List.replicate (SCREEN_BUFFER_SIZE + 1) 0)[i + 1]? with
  | none => rfl
  | some b =>
    have := List.getElem?_mem h
    rw [List.mem_replicate] at this
    simp [this.2]

theorem screen_store_wf (s : ssd1306) (i v : Nat) (hs : s.wf) (hv : v < 256) :
    (s.screen_store i v).wf := by
  refine ⟨by simpa [screen_store] using hs.1, ?_⟩
  intro b hb
  rcases List.mem_or_eq_of_mem_set hb with h | h
  · exact hs.2 b h
  · omega

/-! ### Block fill and block copy -/

theorem memset_getElem?_lt (buf : List Nat) (off c n k : Nat) (hoff : off ≤ buf.length)
    (hk : k < off) : (memset buf off c n)[k]? = buf[k]? := by
  unfold memset
  rw [List.append_assoc, List.getElem?_append_left (by simp; omega)]
  rw [List.getElem?_take_of_lt hk]

theorem memset_getElem?_mid (buf : List Nat) (off c n k : Nat) (hoff : off ≤ buf.length)
    (h1 : off ≤ k) (h2 : k < off + n) : (memset buf off c n)[k]? = some c := by
  unfold memset
  rw [List.append_assoc, List.getElem?_append_right (by simp; omega)]
  rw [List.getElem?_append_left (by simp; omega)]
  simp [List.getElem?_replicate]
  omega

theorem memset_length (buf : List Nat) (off c n : Nat) (h : off + n ≤ buf.length) :
    (memset buf off c n).length = buf.length := by
  simp [memset]
  omega

theorem memcpy_getElem?_lt (buf src : List Nat) (off n k : Nat) (hoff : off ≤ buf.length)
    (hk : k < off) : (memcpy buf off src n)[k]? = buf[k]? := by
  unfold memcpy
  rw [List.append_assoc, List.getElem?_append_left (by simp; omega)]
  rw [List.getElem?_take_of_lt hk]

theorem memcpy_drop (buf src : List Nat) (off n : Nat) (hlen : buf.length = off + n)
    (hsrc : src.length = n) : (memcpy buf off src n).drop off = src := by
  unfold memcpy
  have h1 : (buf.take off).length = off := by simp; omega
  have h2 : buf.drop (off + n) = [] := by simp; omega
  have h3 : src.take n = src := by rw [← hsrc]; exact List.take_length src
  rw [h2, h3, List.append_nil, List.drop_append_of_le_length (by omega)]
  rw [List.drop_of_length_le (by omega), List.nil_append]

/-! ### Degenerate lines -/

theorem line_loop_done (steep : Bool) (x1 dx dy : Nat) (ystep : Int) (fuel x0 y0 : Nat)
    (err : Int) (h : ¬ x0 < x1) :
    line_loop steep x1 dx dy ystep (fuel + 1) x0 y0 err = some [] := by
  simp [line_loop, h]

theorem line_pixels_self (x y : Nat) : line_pixels x y x y = some [] := by
  unfold line_pixels
  simp only [sub_self, Int.natAbs_zero, gt_iff_lt, lt_irrefl, decide_False, Bool.false_eq_true,
    if_false]
  exact line_loop_done _ _ _ _ _ 255 _ _ _ (lt_irrefl x)

/-! ### The column loop of `rectFill` -/

theorem toUInt8_lt (z : Int) : toUInt8 z < 256 := by
  unfold toUInt8
  omega

theorem toUInt8_of_lt (n : Nat) (h : n < 256) : toUInt8 (n : Int) = n := by
  unfold toUInt8
  omega

theorem rectFill_loop_diverges (x y width height : Nat) (c : color) (m : mode)
    (hw : 256 ≤ x + width) :
    ∀ fuel i, i < 256 → rectFill_loop x y width height c m fuel i = none := by
  intro fuel
  induction fuel with
  | zero => intro i _; rfl
  | succ f ih =>
    intro i hi
    have hlt : i < x + width := by omega
    simp only [rectFill_loop, hlt, if_true]
    rw [ih _ (toUInt8_lt _)]
    rfl

theorem rectFill_loop_terminates (x y width height : Nat) (c : color) (m : mode)
    (hfit : x + width ≤ 255) :
    ∀ n i fuel, i + n = x + width → n < fuel →
      rectFill_loop x y width height c m fuel i
        = some ((List.range' i n).map (fun j => stroke.lineV j y height c m)) := by
  intro n
  induction n with
  | zero =>
    intro i fuel hi hf
    obtain ⟨f, rfl⟩ : ∃ f, fuel = f + 1 := ⟨fuel - 1, by omega⟩
    have hge : ¬ i < x + width := by omega
    simp [rectFill_loop, hge]
  | succ k ih =>
    intro i fuel hi hf
    obtain ⟨f, rfl⟩ : ∃ f, fuel = f + 1 := ⟨fuel - 1, by omega⟩
    have hlt : i < x + width := by omega
    have hstep : toUInt8 ((i : Int) + 1) = i + 1 := by
      have := toUInt8_of_lt (i + 1) (by omega)
      simpa using this
    simp only [rectFill_loop, hlt, if_true, hstep]
    rw [ih (i + 1) f (by omega) (by omega)]
    simp [List.range'_succ]

theorem rectFill_of_fits (x y width height : Nat) (c : color) (m : mode)
    (hfit : x + width ≤ 255) :
    rectFill (width + 1) x y width height c m
      = some ((List.range' x width).map (fun j => stroke.lineV j y height c m)) :=
  rectFill_loop_terminates x y width height c m hfit width x (width + 1) rfl (by omega)

/-! ### The claims -/

/-- C1: for every `x < 64`, `y < 48` and every starting framebuffer, after
`pixel(x, y, white, normal)` bit `y % 8` of framebuffer byte `x + (y / 8) * 64` is 1,
and after `pixel(x, y, black, normal)` that same bit is 0. -/
theorem pixel_normal_sets_and_clears (s : ssd1306) (x y : Nat) (hs : s.wf)
    (hx : x < 64) (hy : y < 48) :
    ((s.pixel x y color.white mode.normal).screen_buffer_ (x + (y / 8) * 64)).testBit (y % 8)
        = true ∧
    ((s.pixel x y color.black mode.normal).screen_buffer_ (x + (y / 8) * 64)).testBit (y % 8)
        = false := by
  have hi := index_lt x y hx hy
  have hl : x + (y / 8) * 64 + 1 < s.display_buffer_.length := by
    rw [hs.1]; simp only [SCREEN_BUFFER_SIZE, SCREEN_WIDTH, SCREEN_HEIGHT]; omega
  have hnot : ¬ (x ≥ 64 ∨ y ≥ 48) := by omega
  have hj : y % 8 < 32 := by omega
  constructor
  · simp only [pixel, SCREEN_WIDTH, SCREEN_HEIGHT, BITS_PER_ROW, hnot, if_false]
    simp [screen_buffer_store_same _ _ _ hl, testBit_or_byte, Nat.mod_lt]
  · simp only [pixel, SCREEN_WIDTH, SCREEN_HEIGHT, BITS_PER_ROW, hnot, if_false]
    simp [screen_buffer_store_same _ _ _ hl, testBit_andnot_byte, Nat.mod_lt, hj]

/-- The hypotheses of the set/clear contract hold for the freshly constructed driver
at pixel (3, 10). -/
theorem pixel_normal_sets_and_clears_witness :
    (ctor 60).wf ∧ 3 < 64 ∧ 10 < 48 ∧
    (((ctor 60).pixel 3 10 color.white mode.normal).screen_buffer_ (3 + (10 / 8) * 64)).testBit
        (10 % 8) = true ∧
    (((ctor 60).pixel 3 10 color.black mode.normal).screen_buffer_ (3 + (10 / 8) * 64)).testBit
        (10 % 8) = false :=
  ⟨ctor_wf 60, by decide, by decide,
    pixel_normal_sets_and_clears (ctor 60) 3 10 (ctor_wf 60) (by decide) (by decide)⟩

/-- C2 (as amended): for every `x < 64`, `y < 48` and every starting framebuffer,
`pixel(x, y, black, XOR)` does what `pixel(x, y, black, normal)` does: it clears bit
`y % 8` of framebuffer byte `x + (y / 8) * 64`, keeps every other bit of that byte
and every other byte of the array, and leaves the whole framebuffer unchanged when
that bit was already 0. -/
theorem pixel_black_XOR_clears (s : ssd1306) (x y : Nat) (hs : s.wf)
    (hx : x < 64) (hy : y < 48) :
    s.pixel x y color.black mode.XOR = s.pixel x y color.black mode.normal ∧
    ((s.pixel x y color.black mode.XOR).screen_buffer_ (x + (y / 8) * 64)).testBit (y % 8)
        = false ∧
    (∀ j, j ≠ y % 8 →
      ((s.pixel x y color.black mode.XOR).screen_buffer_ (x + (y / 8) * 64)).testBit j
        = (s.screen_buffer_ (x + (y / 8) * 64)).testBit j) ∧
    (∀ k, k ≠ x + (y / 8) * 64 + 1 →
      (s.pixel x y color.black mode.XOR).display_buffer_[k]? = s.display_buffer_[k]?) ∧
    ((s.screen_buffer_ (x + (y / 8) * 64)).testBit (y % 8) = false →
      s.pixel x y color.black mode.XOR = s) := by
  have hl : x + (y / 8) * 64 + 1 < s.display_buffer_.length := by
    rw [hs.1]; simp only [SCREEN_BUFFER_SIZE, SCREEN_WIDTH, SCREEN_HEIGHT]; omega
  have hnot : ¬ (x ≥ 64 ∨ y ≥ 48) := by omega
  have hj : y % 8 < 32 := by omega
  have hb := screen_buffer_lt s hs (x + (y / 8) * 64)
  refine ⟨?_, ?_, ?_, ?_, ?_⟩
  · simp [pixel]
  · simp only [pixel, SCREEN_WIDTH, SCREEN_HEIGHT, BITS_PER_ROW, hnot, if_false]
    simp [screen_buffer_store_same _ _ _ hl, testBit_andnot_byte, Nat.mod_lt, hj]
  · intro j hjne
    exact pixel_other_bits s x y color.black mode.XOR j hs hx hy hjne
  · intro k hk
    exact pixel_other_bytes s x y color.black mode.XOR k hk
  · intro hbit
    have hval : (s.screen_buffer_ (x + (y / 8) * 64) &&& INT_NOT (SET_BIT (y % 8))) % 256
        = s.screen_buffer_ (x + (y / 8) * 64) := by
      apply Nat.eq_of_testBit_eq
      intro i
      rw [testBit_andnot_byte]
      by_cases hi : y % 8 = i
      · subst hi
        simp [hbit]
      · by_cases h8 : i < 8
        · have h32 : i < 32 := by omega
          simp [hi, h8, h32]
        · simp [h8, byte_testBit_high _ i hb (by omega)]
    simp only [pixel, SCREEN_WIDTH, SCREEN_HEIGHT, BITS_PER_ROW, hnot, if_false]
    simp only [reduceCtorEq, and_false, if_false, hval]
    exact screen_store_self s _ hl

/-- The hypotheses of the XOR/black contract hold for the freshly constructed driver
at pixel (3, 10). -/
theorem pixel_black_XOR_clears_witness :
    (ctor 60).wf ∧ 3 < 64 ∧ 10 < 48 ∧
    ((ctor 60).pixel 3 10 color.black mode.XOR = (ctor 60).pixel 3 10 color.black mode.normal ∧
    (((ctor 60).pixel 3 10 color.black mode.XOR).screen_buffer_ (3 + (10 / 8) * 64)).testBit
        (10 % 8) = false ∧
    (∀ j, j ≠ 10 % 8 →
      (((ctor 60).pixel 3 10 color.black mode.XOR).screen_buffer_ (3 + (10 / 8) * 64)).testBit j
        = ((ctor 60).screen_buffer_ (3 + (10 / 8) * 64)).testBit j) ∧
    (∀ k, k ≠ 3 + (10 / 8) * 64 + 1 →
      ((ctor 60).pixel 3 10 color.black mode.XOR).display_buffer_[k]?
        = (ctor 60).display_buffer_[k]?) ∧
    (((ctor 60).screen_buffer_ (3 + (10 / 8) * 64)).testBit (10 % 8) = false →
      (ctor 60).pixel 3 10 color.black mode.XOR = ctor 60)) :=
  ⟨ctor_wf 60, by decide, by decide,
    pixel_black_XOR_clears (ctor 60) 3 10 (ctor_wf 60) (by decide) (by decide)⟩

/-- With pixel (0, 0) lit, an XOR write of black at (0, 0) clears it: the framebuffer
is not left unchanged. -/
theorem pixel_black_XOR_counterexample :
    ((ctor 60).screen_store 0 1).wf ∧ (0 : Nat) < 64 ∧ (0 : Nat) < 48 ∧
    ((ctor 60).screen_store 0 1).pixel 0 0 color.black mode.XOR
      ≠ (ctor 60).screen_store 0 1 := by
  refine ⟨screen_store_wf _ 0 1 (ctor_wf 60) (by decide), by decide, by decide, ?_⟩
  intro h
  have hl : 0 + 1 < (ctor 60).display_buffer_.length := by rw [ctor_length]; decide
  have hl2 : 0 + 1 < ((ctor 60).screen_store 0 1).display_buffer_.length := by
    simp only [screen_store, List.length_set]
    exact hl
  have h1 := congrArg (fun t => t.screen_buffer_ 0) h
  simp only [screen_buffer_store_same _ _ _ hl] at h1
  have h2 : (((ctor 60).screen_store 0 1).pixel 0 0 color.black mode.XOR).screen_buffer_ 0
      = 0 := by
    simp only [pixel, SCREEN_WIDTH, SCREEN_HEIGHT, BITS_PER_ROW]
    simp only [ge_iff_le, Nat.reduceLeDiff, or_self, if_false, reduceCtorEq, and_false,
      Nat.zero_div, Nat.zero_mul, Nat.add_zero, Nat.zero_mod]
    rw [screen_buffer_store_same _ _ _ hl2, screen_buffer_store_same _ _ _ hl]
    decide
  rw [h2] at h1
  exact absurd h1 (by decide)

/-- C3: for every `x < 64`, `y < 48` and every starting framebuffer, applying
`pixel(x, y, white, XOR)` twice in a row yields exactly the starting state, and
applying it once flips bit `y % 8` of framebuffer byte `x + (y / 8) * 64`. -/
theorem pixel_white_XOR_involution (s : ssd1306) (x y : Nat) (hs : s.wf)
    (hx : x < 64) (hy : y < 48) :
    (s.pixel x y color.white mode.XOR).pixel x y color.white mode.XOR = s ∧
    ((s.pixel x y color.white mode.XOR).screen_buffer_ (x + (y / 8) * 64)).testBit (y % 8)
      = !((s.screen_buffer_ (x + (y / 8) * 64)).testBit (y % 8)) := by
  have hl : x + (y / 8) * 64 + 1 < s.display_buffer_.length := by
    rw [hs.1]; simp only [SCREEN_BUFFER_SIZE, SCREEN_WIDTH, SCREEN_HEIGHT]; omega
  have hnot : ¬ (x ≥ 64 ∨ y ≥ 48) := by omega
  have hb := screen_buffer_lt s hs (x + (y / 8) * 64)
  have hval : ((s.screen_buffer_ (x + (y / 8) * 64) ^^^ SET_BIT (y % 8)) % 256
      ^^^ SET_BIT (y % 8)) % 256 = s.screen_buffer_ (x + (y / 8) * 64) := by
    apply Nat.eq_of_testBit_eq
    intro i
    rw [testBit_xor_byte, testBit_xor_byte]
    by_cases h8 : i < 8
    · by_cases hi : y % 8 = i <;> simp [h8, hi]
    · simp [h8, byte_testBit_high _ i hb (by omega)]
  constructor
  · simp only [pixel, SCREEN_WIDTH, SCREEN_HEIGHT, BITS_PER_ROW, hnot, if_false, and_self,
      if_true]
    rw [screen_buffer_store_same _ _ _ hl, screen_store_store, hval]
    exact screen_store_self s _ hl
  · simp only [pixel, SCREEN_WIDTH, SCREEN_HEIGHT, BITS_PER_ROW, hnot, if_false, and_self,
      if_true]
    rw [screen_buffer_store_same _ _ _ hl, testBit_xor_byte]
    have h8 : y % 8 < 8 := Nat.mod_lt _ (by norm_num)
    simp [h8]

/-- The hypotheses of the involution hold for the freshly constructed driver at
pixel (3, 10). -/
theorem pixel_white_XOR_involution_witness :
    (ctor 60).wf ∧ 3 < 64 ∧ 10 < 48 ∧
    (((ctor 60).pixel 3 10 color.white mode.XOR).pixel 3 10 color.white mode.XOR = ctor 60 ∧
    (((ctor 60).pixel 3 10 color.white mode.XOR).screen_buffer_ (3 + (10 / 8) * 64)).testBit
        (10 % 8)
      = !(((ctor 60).screen_buffer_ (3 + (10 / 8) * 64)).testBit (10 % 8))) :=
  ⟨ctor_wf 60, by decide, by decide,
    pixel_white_XOR_involution (ctor 60) 3 10 (ctor_wf 60) (by decide) (by decide)⟩

/-- C4: for every `(x, y)` with `x >= 64` or `y >= 48`, every colour and every mode,
`pixel(x, y, c, m)` returns with the driver state, and so all 385 bytes of the display
array (the header byte and the 384 framebuffer bytes), unchanged. -/
theorem pixel_out_of_range (s : ssd1306) (x y : Nat) (c : color) (m : mode)
    (h : x ≥ 64 ∨ y ≥ 48) : s.pixel x y c m = s := by
  simp only [pixel, SCREEN_WIDTH, SCREEN_HEIGHT, h, if_true]

/-- The out-of-range hypothesis holds at the first column beyond the panel. -/
theorem pixel_out_of_range_witness :
    ((64 : Nat) ≥ 64 ∨ (0 : Nat) ≥ 48) ∧
    (ctor 60).pixel 64 0 color.white mode.XOR = ctor 60 :=
  ⟨Or.inl (by decide), pixel_out_of_range (ctor 60) 64 0 color.white mode.XOR (Or.inl (by decide))⟩

/-- C5: for every `x < 64`, `y < 48`, colour and mode, the byte index
`x + (y / 8) * 64` that `pixel` writes is below 384; every cell of the display array
other than that framebuffer byte keeps its value (the header byte included), and every
bit of that byte other than bit `y % 8` keeps its value. -/
theorem pixel_frame (s : ssd1306) (x y : Nat) (c : color) (m : mode) (hs : s.wf)
    (hx : x < 64) (hy : y < 48) :
    x + (y / 8) * 64 < 384 ∧
    (∀ k, k ≠ x + (y / 8) * 64 + 1 →
      (s.pixel x y c m).display_buffer_[k]? = s.display_buffer_[k]?) ∧
    (∀ j, j ≠ y % 8 →
      ((s.pixel x y c m).screen_buffer_ (x + (y / 8) * 64)).testBit j
        = (s.screen_buffer_ (x + (y / 8) * 64)).testBit j) :=
  ⟨index_lt x y hx hy, fun k hk => pixel_other_bytes s x y c m k hk,
    fun j hj => pixel_other_bits s x y c m j hs hx hy hj⟩

/-- The hypotheses of the frame property hold for the freshly constructed driver at
pixel (3, 10), XOR/white. -/
theorem pixel_frame_witness :
    (ctor 60).wf ∧ 3 < 64 ∧ 10 < 48 ∧
    (3 + (10 / 8) * 64 < 384 ∧
    (∀ k, k ≠ 3 + (10 / 8) * 64 + 1 →
      ((ctor 60).pixel 3 10 color.white mode.XOR).display_buffer_[k]?
        = (ctor 60).display_buffer_[k]?) ∧
    (∀ j, j ≠ 10 % 8 →
      (((ctor 60).pixel 3 10 color.white mode.XOR).screen_buffer_ (3 + (10 / 8) * 64)).testBit j
        = ((ctor 60).screen_buffer_ (3 + (10 / 8) * 64)).testBit j)) :=
  ⟨ctor_wf 60, by decide, by decide,
    pixel_frame (ctor 60) 3 10 color.white mode.XOR (ctor_wf 60) (by decide) (by decide)⟩

/-- C6: for every byte `v` and every starting framebuffer, `clear(v)` leaves each of
the 384 framebuffer bytes equal to `v`, leaves the header byte untouched and keeps the
array 385 bytes long; `clear()` produces exactly the state of `clear(0)`. -/
theorem clear_fills (s : ssd1306) (v : Nat) (hs : s.wf) :
    (∀ i, i < 384 → (s.clear_uint8 v).screen_buffer_ i = v) ∧
    (s.clear_uint8 v).display_buffer_[0]? = s.display_buffer_[0]? ∧
    (s.clear_uint8 v).display_buffer_.length = 385 ∧
    s.clear = s.clear_uint8 0 := by
  have hlen : s.display_buffer_.length = 385 := hs.1
  refine ⟨?_, ?_, ?_, rfl⟩
  · intro i hi
    simp only [screen_buffer_, clear_uint8, List.getD_eq_getElem?_getD]
    rw [memset_getElem?_mid _ _ _ _ _ (by omega) (by omega)
      (by simp only [SCREEN_BUFFER_SIZE, SCREEN_WIDTH, SCREEN_HEIGHT]; omega)]
    rfl
  · simp only [clear_uint8]
    exact memset_getElem?_lt _ _ _ _ _ (by omega) (by omega)
  · simp only [clear_uint8]
    rw [memset_length _ _ _ _ (by rw [hlen]; decide), hlen]

/-- The hypothesis of the fill contract holds for the freshly constructed driver,
filled with 255. -/
theorem clear_fills_witness :
    (ctor 60).wf ∧
    ((∀ i, i < 384 → ((ctor 60).clear_uint8 255).screen_buffer_ i = 255) ∧
    ((ctor 60).clear_uint8 255).display_buffer_[0]? = (ctor 60).display_buffer_[0]? ∧
    ((ctor 60).clear_uint8 255).display_buffer_.length = 385 ∧
    (ctor 60).clear = (ctor 60).clear_uint8 0) :=
  ⟨ctor_wf 60, clear_fills (ctor 60) 255 (ctor_wf 60)⟩

/-- C7: for every 384-byte `bitmap` and every starting framebuffer, after
`drawBitmap(bitmap)` the 384 framebuffer bytes equal `bitmap` byte for byte in the
same order, and the header byte is unchanged. -/
theorem drawBitmap_round_trip (s : ssd1306) (bitmap : List Nat) (hs : s.wf)
    (hb : bitmap.length = 384) :
    (s.drawBitmap bitmap).display_buffer_.drop 1 = bitmap ∧
    (∀ i, i < 384 → (s.drawBitmap bitmap).screen_buffer_ i = bitmap.getD i 0) ∧
    (s.drawBitmap bitmap).display_buffer_[0]? = s.display_buffer_[0]? := by
  have hlen : s.display_buffer_.length = 385 := hs.1
  have hdrop : (s.drawBitmap bitmap).display_buffer_.drop 1 = bitmap := by
    simp only [drawBitmap]
    exact memcpy_drop _ _ 1 SCREEN_BUFFER_SIZE (by rw [hlen]; decide) (by rw [hb]; decide)
  refine ⟨hdrop, ?_, ?_⟩
  · intro i _
    simp only [screen_buffer_, List.getD_eq_getElem?_getD]
    rw [← hdrop, List.getElem?_drop, Nat.add_comm 1 i, hdrop]
  · simp only [drawBitmap]
    exact memcpy_getElem?_lt _ _ _ _ _ (by omega) (by omega)

/-- The hypotheses of the round trip hold for the freshly constructed driver and an
all-ones bitmap. -/
theorem drawBitmap_round_trip_witness :
    (ctor 60).wf ∧ (List.replicate 384 255).length = 384 ∧
    ((((ctor 60).drawBitmap (List.replicate 384 255)).display_buffer_.drop 1
        = List.replicate 384 255) ∧
    (∀ i, i < 384 → ((ctor 60).drawBitmap (List.replicate 384 255)).screen_buffer_ i
        = (List.replicate 384 255).getD i 0) ∧
    ((ctor 60).drawBitmap (List.replicate 384 255)).display_buffer_[0]?
        = (ctor 60).display_buffer_[0]?) :=
  ⟨ctor_wf 60, List.length_replicate 384 255,
    drawBitmap_round_trip (ctor 60) (List.replicate 384 255) (ctor_wf 60)
      (List.length_replicate 384 255)⟩

/-- C8 (as amended): for every `x`, `y`, colour and mode, `line(x, y, x, y, c, m)`
returns having made no `pixel` call at all (its loop runs over `x0 <= i < x1`, which
is empty), so the driver state is left unchanged. -/
theorem line_same_point_draws_nothing (s : ssd1306) (x y : Nat) (c : color) (m : mode) :
    line_pixels x y x y = some [] ∧ s.line x y x y c m = some s := by
  refine ⟨line_pixels_self x y, ?_⟩
  simp [line, line_pixels_self]

/-- On the freshly constructed driver, a line from (0, 0) to (0, 0) in white does not
give the framebuffer of a single white pixel write at (0, 0). -/
theorem line_same_point_counterexample :
    (ctor 60).wf ∧ (0 : Nat) < 64 ∧ (0 : Nat) < 48 ∧
    (ctor 60).line 0 0 0 0 color.white mode.normal
      ≠ some ((ctor 60).pixel 0 0 color.white mode.normal) := by
  refine ⟨ctor_wf 60, by decide, by decide, ?_⟩
  intro h
  simp only [line, line_pixels_self, Option.map_some', List.foldl_nil, Option.some.injEq] at h
  have h1 := congrArg (fun t => t.screen_buffer_ 0) h
  simp only [ctor_screen_buffer] at h1
  have hl : 0 + 1 < (ctor 60).display_buffer_.length := by rw [ctor_length]; decide
  have h2 : ((ctor 60).pixel 0 0 color.white mode.normal).screen_buffer_ 0 = 1 := by
    simp only [pixel, SCREEN_WIDTH, SCREEN_HEIGHT, BITS_PER_ROW]
    simp only [ge_iff_le, Nat.reduceLeDiff, or_self, if_false, reduceCtorEq, false_and, if_true,
      Nat.zero_div, Nat.zero_mul, Nat.add_zero, Nat.zero_mod]
    rw [screen_buffer_store_same _ _ _ hl, ctor_screen_buffer]
    decide
  rw [h2] at h1
  exact absurd h1 (by decide)

/-- C9 (the code at the failing inputs): `rect(0, 0, 4, 1, white, normal)` and
`rect(0, 0, 4, 0, white, normal)` each issue two `lineV` calls after the two `lineH`
calls, of height 255 and 254: `height - 2` wraps in `uint8_t`, so the guard
`tempHeight < 1` does not fire for heights 1 and 0. -/
theorem rect_low_height_draws_vertical :
    rect 0 0 4 1 color.white mode.normal
      = [stroke.lineH 0 0 4 color.white mode.normal, stroke.lineH 0 0 4 color.white mode.normal,
         stroke.lineV 0 1 255 color.white mode.normal,
         stroke.lineV 3 1 255 color.white mode.normal] ∧
    rect 0 0 4 0 color.white mode.normal
      = [stroke.lineH 0 0 4 color.white mode.normal,
         stroke.lineH 0 255 4 color.white mode.normal,
         stroke.lineV 0 1 254 color.white mode.normal,
         stroke.lineV 3 1 254 color.white mode.normal] := by
  constructor <;> decide

/-- C10 (the code at the failing input): `rectFill(200, 0, 100, 1, white, normal)`
never returns. Whatever the number of loop iterations allowed, the loop is still
running: the `uint8_t` counter stays below the `int` bound `x + width = 300`. -/
theorem rectFill_never_returns_past_255 (fuel : Nat) :
    rectFill fuel 200 0 100 1 color.white mode.normal = none :=
  rectFill_loop_diverges 200 0 100 1 color.white mode.normal (by decide) fuel 200 (by decide)

/-! ### Lemmas for text output, the command channel and the circle -/

theorem toUInt8_add_nat (a b : Nat) : toUInt8 ((a : Int) + (b : Int)) = (a + b) % 256 := by
  unfold toUInt8
  omega

theorem clear_display_buffer (s : ssd1306) (h : Nat) (hlen : s.display_buffer_.length = 385)
    (hhdr : s.display_buffer_[0]? = some h) :
    s.clear.display_buffer_ = h :: List.replicate 384 0 := by
  simp only [clear, clear_uint8, memset]
  have hdrop : s.display_buffer_.drop (1 + SCREEN_BUFFER_SIZE) = [] := by
    apply List.drop_of_length_le
    rw [hlen]
    decide
  have htake : s.display_buffer_.take 1 = [h] := by
    cases hb : s.display_buffer_ with
    | nil => rw [hb] at hlen; simp at hlen
    | cons a l =>
      rw [hb] at hhdr
      simp only [List.getElem?_cons_zero, Option.some.injEq] at hhdr
      simp [hhdr]
  rw [hdrop, htake, List.append_nil]
  rfl

theorem start_sequence_i2c (s : ssd1306) :
    (start_sequence s).i2c_ = s.i2c_ ++ (List.map (fun b => op_t.mk operation.write s.i2c_addr_ b.1 b.2)
      [(2, [0x00, 0xAE]), (3, [0x00, 0xD5, 0x80]), (3, [0x00, 0xA8, 0x2F]),
       (3, [0x00, 0xD3, 0x00]), (2, [0x00, 0x40]), (3, [0x00, 0x8D, 0x14]), (2, [0x00, 0xA6]),
       (2, [0x00, 0xA4]), (2, [0x00, 0xA1]), (2, [0x00, 0xC8]), (3, [0x00, 0xDA, 0x12]),
       (3, [0x00, 0x81, 0x8F]), (3, [0x00, 0xD9, 0xF1]), (3, [0x00, 0xDB, 0x40]),
       (2, [0x00, 0x20]), (2, [0x00, 0x00]), (4, [0x00, 0x21, 32, 95]), (4, [0x00, 0x22, 0, 5]),
       (385, s.clear.display_buffer_.take 385), (2, [0x00, 0xAF])]) := by
  have h1 : (SET_START_LINE ||| 0x0) = 0x40 := by decide
  have h2 : (SEG_REMAP ||| 0x1) = 0xA1 := by decide
  have h3 : toUInt8 ((COLUMN_OFFSET : Int) + SCREEN_WIDTH - 1) = 95 := by decide
  simp only [start_sequence, h1, h2, h3]
  simp only [command, command_arg, command_arg2, i2c_write, display, clear, clear_uint8,
    List.append_assoc, List.singleton_append, List.cons_append, List.nil_append, List.map_cons,
    List.map_nil]
  rfl

theorem start_sequence_display_buffer (s : ssd1306) :
    (start_sequence s).display_buffer_ = s.clear.display_buffer_ := by
  simp only [start_sequence, command, command_arg, command_arg2, i2c_write, display, clear,
    clear_uint8]

theorem pixel_length (s : ssd1306) (x y : Nat) (c : color) (m : mode) :
    (s.pixel x y c m).display_buffer_.length = s.display_buffer_.length := by
  unfold pixel
  split
  · rfl
  · split
    · simp [screen_store]
    · split <;> simp [screen_store]

theorem pixel_framed (s : ssd1306) (x y : Nat) (c : color) (m : mode) (h : s.framed) :
    (s.pixel x y c m).framed := by
  refine ⟨by rw [pixel_length]; exact h.1, ?_⟩
  rw [pixel_other_bytes s x y c m 0 (by omega)]
  exact h.2

theorem foldl_framed {β : Type} (f : ssd1306 → β → ssd1306)
    (hf : ∀ t p, t.framed → (f t p).framed) :
    ∀ (ps : List β) (s : ssd1306), s.framed → (ps.foldl f s).framed := by
  intro ps
  induction ps with
  | nil => intro s h; exact h
  | cons p ps ih => intro s h; exact ih (f s p) (hf s p h)

theorem draw_framed (s : ssd1306) (m : mode) (calls : List (Nat × Nat × color)) (h : s.framed) :
    (s.draw m calls).framed :=
  foldl_framed _ (fun t p ht => pixel_framed t p.1 p.2.1 p.2.2 m ht) calls s h

theorem foldl_pixel_framed (s : ssd1306) (c : color) (m : mode) (ps : List (Nat × Nat))
    (h : s.framed) : (ps.foldl (fun t p => t.pixel p.1 p.2 c m) s).framed :=
  foldl_framed _ (fun t p ht => pixel_framed t p.1 p.2 c m ht) ps s h

theorem run_stroke_framed (stroke_pixels : stroke → List (Nat × Nat)) (s : ssd1306) (st : stroke)
    (h : s.framed) : (run_stroke stroke_pixels s st).framed := by
  cases st with
  | lineH x y w c m => exact foldl_pixel_framed s c m _ h
  | lineV x y w c m => exact foldl_pixel_framed s c m _ h

theorem run_strokes_framed (stroke_pixels : stroke → List (Nat × Nat)) (s : ssd1306)
    (calls : List stroke) (h : s.framed) : (run_strokes stroke_pixels s calls).framed :=
  foldl_framed _ (fun t st ht => run_stroke_framed stroke_pixels t st ht) calls s h

theorem ctor_framed (a : Nat) : (ctor a).framed := by
  refine ⟨(ctor_wf a).1, ?_⟩
  simp only [ctor, List.getElem?_set, List.length_replicate, if_true]
  rfl

theorem clear_framed (s : ssd1306) (h : s.framed) : s.clear.framed := by
  have hlen : s.display_buffer_.length = 385 := h.1
  refine ⟨?_, ?_⟩
  · simp only [clear, clear_uint8]
    rw [memset_length _ _ _ _ (by rw [hlen]; decide)]
    exact h.1
  · simp only [clear, clear_uint8]
    rw [memset_getElem?_lt _ _ _ _ _ (by omega) (by omega)]
    exact h.2

theorem drawBitmap_framed (s : ssd1306) (bitmap : List Nat) (h : s.framed)
    (hb : SCREEN_BUFFER_SIZE ≤ bitmap.length) : (s.drawBitmap bitmap).framed := by
  have hlen : s.display_buffer_.length = 385 := h.1
  have hb2 : 384 ≤ bitmap.length := hb
  refine ⟨?_, ?_⟩
  · simp only [drawBitmap, memcpy, List.length_append, List.length_take, List.length_drop,
      SCREEN_BUFFER_SIZE, SCREEN_WIDTH, SCREEN_HEIGHT]
    omega
  · simp only [drawBitmap]
    rw [memcpy_getElem?_lt _ _ _ _ _ (by omega) (by omega)]
    exact h.2

theorem drawChar_framed (fonts_ : font_tables) (s t : ssd1306) (x y character : Nat)
    (c : color) (m : mode) (h : s.framed)
    (ht : drawChar fonts_ s x y character c m = Except.ok t) : t.framed := by
  unfold drawChar at ht
  split at ht
  · split at ht
    · unfold drawCharSingleRow at ht
      cases hp : drawCharSingleRow_pixels fonts_ s x y
          (toUInt8 ((character : Int) - s.fontStartChar_)) c with
      | error e => rw [hp] at ht; cases ht
      | ok ps =>
        rw [hp] at ht
        cases ht
        exact draw_framed s m ps h
    · unfold drawCharMultiRow at ht
      cases hp : drawCharMultiRow_pixels fonts_ s x y
          (toUInt8 ((character : Int) - s.fontStartChar_)) c with
      | error e => rw [hp] at ht; cases ht
      | ok ps =>
        rw [hp] at ht
        cases ht
        exact draw_framed s m ps h
  · cases ht

theorem putchar_framed (fonts_ : font_tables) (s t : ssd1306) (c : Nat) (h : s.framed)
    (ht : putchar fonts_ s c = Except.ok t) : t.framed := by
  unfold putchar at ht
  split at ht
  · cases ht
    exact h
  · split at ht
    · cases hd : drawChar fonts_ s s.cursorX_ s.cursorY_ c s.color_ s.mode_ with
      | error e => rw [hd] at ht; cases ht
      | ok u =>
        rw [hd] at ht
        have hu := drawChar_framed fonts_ s u _ _ _ _ _ h hd
        simp only at ht
        split at ht <;> (cases ht; exact hu)
    · cases ht
      exact h

theorem circle_framed (s t : ssd1306) (x y radius : Nat) (c : color) (m : mode) (h : s.framed)
    (ht : s.circle x y radius c m = Except.ok t) : t.framed := by
  unfold circle at ht
  cases hp : circle_pixels x y radius with
  | error e => rw [hp] at ht; cases ht
  | ok ps =>
    rw [hp] at ht
    cases ht
    exact foldl_pixel_framed s c m ps h

theorem circleFill_framed (s t : ssd1306) (x y radius : Nat) (c : color) (m : mode)
    (h : s.framed) (ht : s.circleFill x y radius c m = Except.ok t) : t.framed := by
  unfold circleFill at ht
  split at ht
  · cases ht
    exact h
  · cases hp : circleFill_pixels x y radius with
    | error e => rw [hp] at ht; cases ht
    | ok ps =>
      rw [hp] at ht
      cases ht
      exact foldl_pixel_framed s c m ps h

theorem line_framed (s t : ssd1306) (x0 y0 x1 y1 : Nat) (c : color) (m : mode) (h : s.framed)
    (ht : s.line x0 y0 x1 y1 c m = some t) : t.framed := by
  unfold line at ht
  cases hp : line_pixels x0 y0 x1 y1 with
  | none => rw [hp] at ht; cases ht
  | some ps =>
    rw [hp] at ht
    cases ht
    exact foldl_pixel_framed s c m ps h

theorem fontType_display_buffer (fonts_ : font_tables) (s : ssd1306) (type : Nat)
    (r : Nat × ssd1306) (hr : fontType fonts_ s type = Except.ok r) :
    r.2.display_buffer_ = s.display_buffer_ := by
  unfold fontType at hr
  split at hr
  · split at hr
    · cases hr
      rfl
    · cases hr
  · cases hr

theorem start_framed (fonts_ : font_tables) (s t : ssd1306) (h : s.framed)
    (ht : start_ fonts_ s = Except.ok t) : t.framed := by
  unfold start_ at ht
  cases hf : fontType fonts_ s 0 with
  | error e => rw [hf] at ht; cases ht
  | ok r =>
    rw [hf] at ht
    cases ht
    have hd := fontType_display_buffer fonts_ s 0 r hf
    have h1 : (((r.2.drawColor color.white).drawMode mode.normal).cursor 0 0).framed := by
      unfold framed
      simp only [cursor, drawMode, drawColor, hd]
      exact h
    have h2 := clear_framed _ h1
    unfold framed
    rw [start_sequence_display_buffer]
    exact h2

theorem reachable_framed (fonts_ : font_tables) (stroke_pixels : stroke → List (Nat × Nat))
    (s : ssd1306) (h : reachable fonts_ stroke_pixels s) : s.framed := by
  induction h with
  | ctor a => exact ctor_framed a
  | clear _ ih => exact clear_framed _ ih
  | pixel x y c m _ ih => exact pixel_framed _ x y c m ih
  | line x0 y0 x1 y1 c m _ ht ih => exact line_framed _ _ x0 y0 x1 y1 c m ih ht
  | rect x y w h c m _ ih => exact run_strokes_framed _ _ _ ih
  | rectFill fuel x y w h c m calls _ _ ih => exact run_strokes_framed _ _ _ ih
  | circle x y r c m _ ht ih => exact circle_framed _ _ x y r c m ih ht
  | circleFill x y r c m _ ht ih => exact circleFill_framed _ _ x y r c m ih ht
  | drawChar x y ch c m _ ht ih => exact drawChar_framed fonts_ _ _ x y ch c m ih ht
  | putchar c _ ht ih => exact putchar_framed fonts_ _ _ c ih ht
  | drawBitmap bitmap _ hb ih => exact drawBitmap_framed _ bitmap ih hb
  | fontType type r _ hr ih =>
    unfold framed
    rw [fontType_display_buffer fonts_ _ type r hr]
    exact ih
  | cursor x y _ ih => exact ih
  | drawColor c _ ih => exact ih
  | drawMode m _ ih => exact ih
  | display _ ih => exact ih
  | start_ _ ht ih => exact start_framed fonts_ _ _ ih ht
  | i2c_write buffer size _ ih => exact ih

theorem framed_take (s : ssd1306) (h : s.framed) :
    s.display_buffer_.take (SCREEN_BUFFER_SIZE + 1)
      = 0x40 :: (List.range 384).map s.screen_buffer_ := by
  have hlen : s.display_buffer_.length = 385 := h.1
  have hhdr : s.display_buffer_[0]? = some 0x40 := h.2
  rw [List.take_of_length_le (by rw [hlen]; decide)]
  apply List.ext_getElem?
  intro n
  cases n with
  | zero => rw [hhdr]; rfl
  | succ k =>
    rw [List.getElem?_cons_succ, List.getElem?_map]
    by_cases hk : k < 384
    · rw [List.getElem?_range hk]
      simp only [Option.map_some', screen_buffer_, List.getD_eq_getElem?_getD]
      have hk2 : k + 1 < s.display_buffer_.length := by omega
      rw [List.getElem?_eq_getElem hk2]
      rfl
    · have h1 : s.display_buffer_[k + 1]? = none := by
        rw [List.getElem?_eq_none_iff]
        omega
      have h2 : (List.range 384)[k]? = none := by
        rw [List.getElem?_eq_none_iff, List.length_range]
        omega
      rw [h1, h2]
      rfl

theorem for_uint8_lt {α : Type} (n : Nat) (hn : n ≤ 255) (body : Nat → Except fault (List α))
    (f : Nat → List α) (hbody : ∀ i, i < n → body i = Except.ok (f i)) :
    ∀ k i fuel, i + k = n → k < fuel →
      for_uint8 (fun i => decide (i < n)) body fuel i
        = Except.ok ((List.range' i k).flatMap f) := by
  intro k
  induction k with
  | zero =>
    intro i fuel hi hf
    obtain ⟨g, rfl⟩ : ∃ g, fuel = g + 1 := ⟨fuel - 1, by omega⟩
    have hge : ¬ i < n := by omega
    simp [for_uint8, hge]
  | succ k ih =>
    intro i fuel hi hf
    obtain ⟨g, rfl⟩ : ∃ g, fuel = g + 1 := ⟨fuel - 1, by omega⟩
    have hlt : i < n := by omega
    have hstep : toUInt8 ((i : Int) + 1) = i + 1 := by
      have := toUInt8_of_lt (i + 1) (by omega)
      simpa using this
    simp only [for_uint8, hlt, decide_True, if_true, hbody i hlt, hstep]
    rw [ih (i + 1) g (by omega) (by omega)]
    simp [List.range'_succ]

theorem glyph_byte_eq (px py temp : Nat) (c : color) :
    glyph_byte px py temp c = Except.ok ((List.range' 0 8).flatMap (fun j =>
      [(toUInt8 (px : Int), toUInt8 ((py : Int) + j), bit_color temp j c)])) := by
  unfold glyph_byte
  exact for_uint8_lt 8 (by omega) _ _ (fun i _ => rfl) 8 0 257 rfl (by omega)

theorem drawCharSingleRow_pixels_eq (fonts_ : font_tables) (s : ssd1306) (x y g : Nat)
    (c : color) (table : Nat → Nat) (hfont : fonts_at fonts_ s.fontType_ = some table)
    (hw : s.fontWidth_ ≤ 254) :
    drawCharSingleRow_pixels fonts_ s x y g c
      = Except.ok (cell_calls x y (s.fontWidth_ + 1) (fun i j =>
          bit_color (if i = s.fontWidth_ then 0
                     else table (FONT_HEADER_SIZE + g * s.fontWidth_ + i) % 256) j c)) := by
  unfold drawCharSingleRow_pixels cell_calls
  refine for_uint8_lt (s.fontWidth_ + 1) (by omega) _ _ ?_ (s.fontWidth_ + 1) 0 257 (by omega)
    (by omega)
  intro i _
  by_cases hi : i = s.fontWidth_
  · simp only [hi, if_true, glyph_byte_eq]
  · simp only [hi, if_false, font_byte, hfont, glyph_byte_eq]

theorem pixel_wf (s : ssd1306) (x y : Nat) (c : color) (m : mode) (hs : s.wf) :
    (s.pixel x y c m).wf := by
  unfold pixel
  split
  · exact hs
  · split
    · exact screen_store_wf _ _ _ hs (Nat.mod_lt _ (by norm_num))
    · split
      · exact screen_store_wf _ _ _ hs (Nat.mod_lt _ (by norm_num))
      · exact screen_store_wf _ _ _ hs (Nat.mod_lt _ (by norm_num))

theorem lit_pixel_same (s : ssd1306) (x y : Nat) (c : color) (hs : s.wf)
    (hx : x < 64) (hy : y < 48) :
    (s.pixel x y c mode.normal).lit x y = decide (c = color.white) := by
  have hl : x + (y / 8) * 64 + 1 < s.display_buffer_.length := by
    rw [hs.1]; simp only [SCREEN_BUFFER_SIZE, SCREEN_WIDTH, SCREEN_HEIGHT]; omega
  have hnot : ¬ (x ≥ 64 ∨ y ≥ 48) := by omega
  have hj : y % 8 < 32 := by omega
  cases c
  · simp only [lit, pixel, SCREEN_WIDTH, SCREEN_HEIGHT, BITS_PER_ROW, hnot, if_false]
    simp [screen_buffer_store_same _ _ _ hl, testBit_andnot_byte, Nat.mod_lt, hj]
  · simp only [lit, pixel, SCREEN_WIDTH, SCREEN_HEIGHT, BITS_PER_ROW, hnot, if_false]
    simp [screen_buffer_store_same _ _ _ hl, testBit_or_byte, Nat.mod_lt]

theorem lit_pixel_other (s : ssd1306) (x y a b : Nat) (c : color) (m : mode) (hs : s.wf)
    (ha : a < 64) (hne : ¬ (a = x ∧ b = y)) :
    (s.pixel x y c m).lit a b = s.lit a b := by
  by_cases hin : x ≥ 64 ∨ y ≥ 48
  · simp only [pixel, SCREEN_WIDTH, SCREEN_HEIGHT, hin, if_true]
  · have hx : x < 64 := by omega
    have hy : y < 48 := by omega
    simp only [lit, SCREEN_WIDTH, BITS_PER_ROW]
    by_cases hidx : a + (b / 8) * 64 = x + (y / 8) * 64
    · have hax : a = x := by omega
      have hb8 : b % 8 ≠ y % 8 := by
        intro h8
        apply hne
        constructor
        · exact hax
        · omega
      rw [hidx]
      exact pixel_other_bits s x y c m (b % 8) hs hx hy hb8
    · have hk : a + (b / 8) * 64 + 1 ≠ x + (y / 8) * 64 + 1 := by omega
      simp only [screen_buffer_, List.getD_eq_getElem?_getD]
      rw [pixel_other_bytes s x y c m _ hk]

theorem draw_wf (m : mode) : ∀ (calls : List (Nat × Nat × color)) (s : ssd1306),
    s.wf → (s.draw m calls).wf := by
  intro calls
  induction calls with
  | nil => intro s hs; exact hs
  | cons p ps ih => intro s hs; exact ih _ (pixel_wf s p.1 p.2.1 p.2.2 m hs)

theorem draw_cons (s : ssd1306) (m : mode) (p : Nat × Nat × color)
    (ps : List (Nat × Nat × color)) :
    s.draw m (p :: ps) = (s.pixel p.1 p.2.1 p.2.2 m).draw m ps := rfl

theorem draw_unchanged (m : mode) (a b : Nat) (ha : a < 64) :
    ∀ (calls : List (Nat × Nat × color)) (s : ssd1306), s.wf →
      (∀ p ∈ calls, ¬ (a = p.1 ∧ b = p.2.1)) → (s.draw m calls).lit a b = s.lit a b := by
  intro calls
  induction calls with
  | nil => intro s _ _; rfl
  | cons p ps ih =>
    intro s hs hp
    rw [draw_cons, ih _ (pixel_wf s p.1 p.2.1 p.2.2 m hs)
      (fun q hq => hp q (List.mem_cons_of_mem _ hq))]
    exact lit_pixel_other s p.1 p.2.1 a b p.2.2 m hs ha (hp p (List.mem_cons_self _ _))

theorem draw_normal_lit (a b : Nat) (col : color) (ha : a < 64) (hb : b < 48) :
    ∀ (calls : List (Nat × Nat × color)) (s : ssd1306), s.wf →
      (∀ p ∈ calls, a = p.1 → b = p.2.1 → p.2.2 = col) →
      (s.lit a b = decide (col = color.white) ∨ ∃ p ∈ calls, a = p.1 ∧ b = p.2.1) →
      (s.draw mode.normal calls).lit a b = decide (col = color.white) := by
  intro calls
  induction calls with
  | nil =>
    intro s _ _ h
    rcases h with h | ⟨p, hp, _⟩
    · exact h
    · cases hp
  | cons p ps ih =>
    intro s hs hcol h
    rw [draw_cons]
    apply ih _ (pixel_wf s p.1 p.2.1 p.2.2 mode.normal hs)
      (fun q hq => hcol q (List.mem_cons_of_mem _ hq))
    by_cases hp : a = p.1 ∧ b = p.2.1
    · left
      have hc := hcol p (List.mem_cons_self _ _) hp.1 hp.2
      rw [← hp.1, ← hp.2, hc]
      exact lit_pixel_same s a b col hs ha hb
    · rcases h with h | ⟨q, hq, hqa⟩
      · left
        rw [lit_pixel_other s p.1 p.2.1 a b p.2.2 mode.normal hs ha hp]
        exact h
      · right
        rcases List.mem_cons.1 hq with rfl | hq2
        · exact absurd hqa hp
        · exact ⟨q, hq2, hqa⟩

theorem bit_color_white (temp j : Nat) (c : color) :
    decide (bit_color temp j c = color.white) = (temp.testBit j == decide (c = color.white)) := by
  have hb : ((temp >>> j) &&& 0x1 = 0) ↔ temp.testBit j = false := by
    simp [Nat.testBit, Nat.and_comm]
  unfold bit_color set_color
  cases hbit : temp.testBit j
  · rw [if_pos (hb.2 hbit)]
    cases c <;> simp
  · have hn : ¬ ((temp >>> j) &&& 0x1 = 0) := by
      intro h0
      rw [hb.1 h0] at hbit
      cases hbit
    rw [if_neg hn]
    cases c <;> simp

theorem mem_cell_calls (x y n : Nat) (col : Nat → Nat → color) (p : Nat × Nat × color)
    (hx : x + n ≤ 64) (hy : y + 7 < 48) :
    p ∈ cell_calls x y n col ↔ ∃ i j, i < n ∧ j < 8 ∧ p = (x + i, y + j, col i j) := by
  unfold cell_calls
  simp only [List.mem_flatMap, List.mem_range'_1, List.mem_singleton]
  constructor
  · rintro ⟨i, ⟨_, hi⟩, j, ⟨_, hj⟩, rfl⟩
    refine ⟨i, j, by omega, by omega, ?_⟩
    have h1 : toUInt8 ((x + i : Nat) : Int) = x + i := toUInt8_of_lt _ (by omega)
    have h2 : toUInt8 ((y : Int) + j) = y + j := by
      have := toUInt8_of_lt (y + j) (by omega)
      simpa using this
    rw [h1, h2]
  · rintro ⟨i, j, hi, hj, rfl⟩
    refine ⟨i, ⟨by omega, by omega⟩, j, ⟨by omega, by omega⟩, ?_⟩
    have h1 : toUInt8 ((x + i : Nat) : Int) = x + i := toUInt8_of_lt _ (by omega)
    have h2 : toUInt8 ((y : Int) + j) = y + j := by
      have := toUInt8_of_lt (y + j) (by omega)
      simpa using this
    rw [h1, h2]

theorem toUInt8_sub_nat (a b : Nat) (hb : b ≤ a) (ha : a < 256) :
    toUInt8 ((a : Int) - (b : Int)) = a - b := by
  unfold toUInt8
  omega

theorem drawChar_single_row_eq (fonts_ : font_tables) (s : ssd1306) (x y ch : Nat) (c : color)
    (m : mode) (table : Nat → Nat) (hfont : fonts_at fonts_ s.fontType_ = some table)
    (hrow : s.fontHeight_ / 8 ≤ 1) (hw : s.fontWidth_ ≤ 254) (hch8 : ch < 256)
    (hlo : s.fontStartChar_ ≤ ch) (hhi : ch + 1 < s.fontStartChar_ + s.fontTotalChar_) :
    drawChar fonts_ s x y ch c m
      = Except.ok (s.draw m (cell_calls x y (s.fontWidth_ + 1) (fun i j =>
          bit_color (if i = s.fontWidth_ then 0
                     else table (6 + (ch - s.fontStartChar_) * s.fontWidth_ + i) % 256) j c))) := by
  have hcond : ch ≥ s.fontStartChar_ ∧
      (ch : Int) < (s.fontStartChar_ : Int) + (s.fontTotalChar_ : Int) - 1 := by
    constructor
    · exact hlo
    · omega
  have hg : toUInt8 ((ch : Int) - (s.fontStartChar_ : Int)) = ch - s.fontStartChar_ :=
    toUInt8_sub_nat ch s.fontStartChar_ hlo hch8
  have hrow2 : s.fontHeight_ / BITS_PER_ROW ≤ 1 := hrow
  simp only [drawChar, hcond, and_self, if_true, hrow2, drawCharSingleRow, hg,
    drawCharSingleRow_pixels_eq fonts_ s x y _ c table hfont hw]
  rfl

theorem drawChar_rejects (fonts_ : font_tables) (s : ssd1306) (x y ch : Nat) (c : color)
    (m : mode)
    (h : ¬ (ch ≥ s.fontStartChar_ ∧
      (ch : Int) < (s.fontStartChar_ : Int) + (s.fontTotalChar_ : Int) - 1)) :
    drawChar fonts_ s x y ch c m = Except.error (fault.assertion s) := by
  simp only [drawChar, h, if_false]

theorem pixel_fields (s : ssd1306) (x y : Nat) (c : color) (m : mode) :
    s.pixel x y c m = { s with display_buffer_ := (s.pixel x y c m).display_buffer_ } := by
  unfold pixel
  split
  · rfl
  · split
    · rfl
    · split <;> rfl

theorem draw_fields (m : mode) : ∀ (calls : List (Nat × Nat × color)) (s : ssd1306),
    s.draw m calls = { s with display_buffer_ := (s.draw m calls).display_buffer_ } := by
  intro calls
  induction calls with
  | nil => intro s; rfl
  | cons p ps ih =>
    intro s
    rw [draw_cons, ih (s.pixel p.1 p.2.1 p.2.2 m)]
    rw [pixel_fields s p.1 p.2.1 p.2.2 m]

theorem drawChar_fields (fonts_ : font_tables) (s t : ssd1306) (x y ch : Nat) (c : color)
    (m : mode) (ht : drawChar fonts_ s x y ch c m = Except.ok t) :
    t = { s with display_buffer_ := t.display_buffer_ } := by
  unfold drawChar at ht
  split at ht
  · split at ht
    · unfold drawCharSingleRow at ht
      cases hp : drawCharSingleRow_pixels fonts_ s x y
          (toUInt8 ((ch : Int) - s.fontStartChar_)) c with
      | error e => rw [hp] at ht; cases ht
      | ok ps =>
        rw [hp] at ht
        cases ht
        exact draw_fields m ps s
    · unfold drawCharMultiRow at ht
      cases hp : drawCharMultiRow_pixels fonts_ s x y
          (toUInt8 ((ch : Int) - s.fontStartChar_)) c with
      | error e => rw [hp] at ht; cases ht
      | ok ps =>
        rw [hp] at ht
        cases ht
        exact draw_fields m ps s
  · cases ht

theorem putchar_printable (fonts_ : font_tables) (s t : ssd1306) (ch : Nat)
    (h10 : ch ≠ 10) (h13 : ch ≠ 13)
    (hd : drawChar fonts_ s s.cursorX_ s.cursorY_ ch s.color_ s.mode_ = Except.ok t) :
    putchar fonts_ s ch = Except.ok
      (if (s.cursorX_ + s.fontWidth_ + 1) % 256 + s.fontWidth_ > 64 then
        { t with cursorY_ := (s.cursorY_ + s.fontHeight_) % 256, cursorX_ := 0 }
      else
        { t with cursorX_ := (s.cursorX_ + s.fontWidth_ + 1) % 256 }) := by
  have hf := drawChar_fields fonts_ s t _ _ _ _ _ hd
  have hx : t.cursorX_ = s.cursorX_ := by rw [hf]
  have hy : t.cursorY_ = s.cursorY_ := by rw [hf]
  have hw : t.fontWidth_ = s.fontWidth_ := by rw [hf]
  have hh : t.fontHeight_ = s.fontHeight_ := by rw [hf]
  have hadv : toUInt8 ((s.cursorX_ : Int) + ((s.fontWidth_ : Int) + 1))
      = (s.cursorX_ + s.fontWidth_ + 1) % 256 := by
    unfold toUInt8
    omega
  have hcond : (((((s.cursorX_ + s.fontWidth_ + 1) % 256 : Nat) : Int)
      > ((SCREEN_WIDTH : Nat) : Int) - (s.fontWidth_ : Int)))
      ↔ (s.cursorX_ + s.fontWidth_ + 1) % 256 + s.fontWidth_ > 64 := by
    simp only [SCREEN_WIDTH]
    omega
  simp only [putchar, h10, h13, if_false, ne_eq, not_false_eq_true, if_true, hd, hx, hy, hw, hh,
    hadv, toUInt8_add_nat, hcond]
  split <;> rfl

theorem sample_5x7_drawChar (x y ch : Nat) (c : color) (m : mode) (hch : ch + 1 < 255) :
    drawChar sample_fonts (sample_5x7.cursor x y) x y ch c m
      = Except.ok ((sample_5x7.cursor x y).draw m (cell_calls x y 6 (fun i j =>
          bit_color (if i = 5 then 0 else sample_fonts.font5x7 (6 + ch * 5 + i) % 256) j c))) :=
  drawChar_single_row_eq sample_fonts (sample_5x7.cursor x y) x y ch c m sample_fonts.font5x7 rfl
    (by show 8 / 8 ≤ 1; decide) (by show 5 ≤ 254; decide) (by omega) (Nat.zero_le ch)
    (by show ch + 1 < 0 + 255; omega)

/-! ### The claims on text output, the command channel and initialisation -/

/-- C11 (the code at the failing input): with a font whose first character is 32 and
which holds 96 characters, the code 127 lies in `[32, 32 + 96)`, yet
`drawChar(0, 0, 127, white, normal)` stops at the `assert`, the driver untouched:
the check is `character < fontStartChar_ + fontTotalChar_ - 1`, which leaves out the
last character of every font. -/
theorem drawChar_rejects_last_char :
    sample_8x16.fontStartChar_ = 32 ∧ sample_8x16.fontTotalChar_ = 96 ∧
    32 ≤ 127 ∧ 127 < 32 + 96 ∧
    drawChar sample_fonts sample_8x16 0 0 127 color.white mode.normal
      = Except.error (fault.assertion sample_8x16) := by
  refine ⟨rfl, rfl, by decide, by decide, ?_⟩
  apply drawChar_rejects
  have h1 : sample_8x16.fontStartChar_ = 32 := rfl
  have h2 : sample_8x16.fontTotalChar_ = 96 := rfl
  rw [h1, h2]
  decide

/-- C12 (as amended): for a character other than line feed and carriage return that
`drawChar` draws at the cursor `(x, y)`, with glyph width `gw`, `putchar` returns with
the framebuffer as `drawChar` left it; it moves the cursor to
`(0, (y + font_height) mod 256)` exactly when the advanced position
`(x + gw + 1) mod 256` exceeds `64 - gw`, and otherwise leaves `y` unchanged and
sets the cursor x to `(x + gw + 1) mod 256`. -/
theorem putchar_advances (fonts_ : font_tables) (s t : ssd1306) (ch : Nat)
    (h10 : ch ≠ 10) (h13 : ch ≠ 13)
    (hd : drawChar fonts_ s s.cursorX_ s.cursorY_ ch s.color_ s.mode_ = Except.ok t) :
    ∃ u, putchar fonts_ s ch = Except.ok u ∧ u.display_buffer_ = t.display_buffer_ ∧
      ((s.cursorX_ + s.fontWidth_ + 1) % 256 + s.fontWidth_ > 64 →
        u.cursorX_ = 0 ∧ u.cursorY_ = (s.cursorY_ + s.fontHeight_) % 256) ∧
      (¬ ((s.cursorX_ + s.fontWidth_ + 1) % 256 + s.fontWidth_ > 64) →
        u.cursorX_ = (s.cursorX_ + s.fontWidth_ + 1) % 256 ∧ u.cursorY_ = s.cursorY_) := by
  have hf := drawChar_fields fonts_ s t _ _ _ _ _ hd
  have hy : t.cursorY_ = s.cursorY_ := by rw [hf]
  refine ⟨_, putchar_printable fonts_ s t ch h10 h13 hd, ?_, ?_, ?_⟩
  · split <;> rfl
  · intro h
    rw [if_pos h]
    exact ⟨rfl, rfl⟩
  · intro h
    rw [if_neg h]
    exact ⟨rfl, hy⟩

/-- The hypotheses of the cursor rule hold for the character 65 on a driver with the
sample single-row font selected and the cursor at the origin. -/
theorem putchar_advances_witness :
    65 ≠ 10 ∧ 65 ≠ 13 ∧
    ∃ t, drawChar sample_fonts (sample_5x7.cursor 0 0) (sample_5x7.cursor 0 0).cursorX_
        (sample_5x7.cursor 0 0).cursorY_ 65 (sample_5x7.cursor 0 0).color_
        (sample_5x7.cursor 0 0).mode_ = Except.ok t ∧
      ∃ u, putchar sample_fonts (sample_5x7.cursor 0 0) 65 = Except.ok u ∧
        u.display_buffer_ = t.display_buffer_ ∧
        (((sample_5x7.cursor 0 0).cursorX_ + (sample_5x7.cursor 0 0).fontWidth_ + 1) % 256
            + (sample_5x7.cursor 0 0).fontWidth_ > 64 →
          u.cursorX_ = 0 ∧ u.cursorY_
            = ((sample_5x7.cursor 0 0).cursorY_ + (sample_5x7.cursor 0 0).fontHeight_) % 256) ∧
        (¬ (((sample_5x7.cursor 0 0).cursorX_ + (sample_5x7.cursor 0 0).fontWidth_ + 1) % 256
            + (sample_5x7.cursor 0 0).fontWidth_ > 64) →
          u.cursorX_
            = ((sample_5x7.cursor 0 0).cursorX_ + (sample_5x7.cursor 0 0).fontWidth_ + 1) % 256 ∧
          u.cursorY_ = (sample_5x7.cursor 0 0).cursorY_) :=
  ⟨by decide, by decide, _, sample_5x7_drawChar 0 0 65 color.white mode.normal (by decide),
    putchar_advances sample_fonts (sample_5x7.cursor 0 0) _ 65 (by decide) (by decide)
      (sample_5x7_drawChar 0 0 65 color.white mode.normal (by decide))⟩

/-- With the sample 5-pixel font and the cursor at `(54, 0)`, `54 + 5 > 64 - 5` is
false, yet `putchar` of the character 65 ends with the cursor at `(0, 8)`, not at
`(60, 0)`. -/
theorem putchar_wrap_counterexample :
    (sample_5x7.cursor 54 0).cursorX_ = 54 ∧ (sample_5x7.cursor 54 0).cursorY_ = 0 ∧
    (sample_5x7.cursor 54 0).fontWidth_ = 5 ∧ (sample_5x7.cursor 54 0).fontHeight_ = 8 ∧
    ¬ (54 + 5 > 64 - 5) ∧
    ∃ u, putchar sample_fonts (sample_5x7.cursor 54 0) 65 = Except.ok u ∧
      u.cursorX_ = 0 ∧ u.cursorY_ = 8 := by
  refine ⟨rfl, rfl, rfl, rfl, by decide, ?_⟩
  have hd := sample_5x7_drawChar 54 0 65 color.white mode.normal (by decide)
  have hp := putchar_printable sample_fonts (sample_5x7.cursor 54 0) _ 65 (by decide) (by decide) hd
  have hc : ((sample_5x7.cursor 54 0).cursorX_ + (sample_5x7.cursor 54 0).fontWidth_ + 1) % 256
      + (sample_5x7.cursor 54 0).fontWidth_ > 64 := by decide
  rw [if_pos hc] at hp
  exact ⟨_, hp, rfl, rfl⟩

/-- C13: for every cursor position `(x, y)` and selected font, `putchar` of a line
feed returns with the cursor at `(0, (y + font_height) mod 256)` whatever `x` was,
and with every other member as before: nothing is drawn and no transfer is
submitted. -/
theorem putchar_newline (fonts_ : font_tables) (s : ssd1306) :
    putchar fonts_ s 10
      = Except.ok { s with cursorX_ := 0, cursorY_ := (s.cursorY_ + s.fontHeight_) % 256 } := by
  simp only [putchar, if_true, toUInt8_add_nat]

/-- C14 (the code at the failing input): `scrollRight(0, 7)`, with `start < stop`,
stops at the `assert` with no transfer submitted, while `scrollRight(7, 0)`, with
`start > stop`, passes it and submits the nine scroll commands: the check is
`assert(stop < start)`. -/
theorem scrollRight_rejects_ascending (s : ssd1306) :
    scrollRight s 0 7 = Except.error (fault.assertion s) ∧
    scrollRight s 7 0 = Except.ok
      { s with i2c_ := s.i2c_ ++ (List.map (fun b => op_t.mk operation.write s.i2c_addr_ 2 b)
                        [[0x00, 0x2E], [0x00, 0x26], [0x00, 0x00], [0x00, 7], [0x00, 0x07],
                         [0x00, 0], [0x00, 0x00], [0x00, 0xFF], [0x00, 0x2F]]) } := by
  constructor
  · rfl
  · simp [scrollRight, scrollStop, command, i2c_write, DEACTIVATE_SCROLL, RIGHT_HORIZONTAL_SCROLL,
      ACTIVATE_SCROLL, I2C_COMMAND_REG]

/-- C15: each channel call appends exactly one write transfer to the configured bus
address, carrying the prefix byte followed by the payload in argument order:
`command(cmd)` sends `[0x00, cmd]`, `command(cmd, a1)` sends `[0x00, cmd, a1]`,
`command(cmd, a1, a2)` sends `[0x00, cmd, a1, a2]` and `data(d)` sends `[0x40, d]`,
of sizes 2, 3, 4 and 2; none of them changes the display array. -/
theorem channel_framing (s : ssd1306) (cmd a1 a2 d : Nat) :
    (s.command cmd).i2c_ = s.i2c_ ++ [op_t.mk operation.write s.i2c_addr_ 2 [0x00, cmd]] ∧
    (s.command_arg cmd a1).i2c_
      = s.i2c_ ++ [op_t.mk operation.write s.i2c_addr_ 3 [0x00, cmd, a1]] ∧
    (s.command_arg2 cmd a1 a2).i2c_
      = s.i2c_ ++ [op_t.mk operation.write s.i2c_addr_ 4 [0x00, cmd, a1, a2]] ∧
    (s.data d).i2c_ = s.i2c_ ++ [op_t.mk operation.write s.i2c_addr_ 2 [0x40, d]] ∧
    (s.command cmd).display_buffer_ = s.display_buffer_ ∧
    (s.command_arg cmd a1).display_buffer_ = s.display_buffer_ ∧
    (s.command_arg2 cmd a1 a2).display_buffer_ = s.display_buffer_ ∧
    (s.data d).display_buffer_ = s.display_buffer_ :=
  ⟨rfl, rfl, rfl, rfl, rfl, rfl, rfl, rfl⟩

/-- C16: in every state reachable from construction through the drawing operations
(and the setters, `display`, `start_` and the command channel), byte 0 of the display
array is the data marker `0x40`, and `display()` appends exactly one write transfer of
385 bytes to the bus address, `0x40` followed by the 384 framebuffer bytes in index
order, leaving the display array as it was. -/
theorem reachable_display_frame (fonts_ : font_tables)
    (stroke_pixels : stroke → List (Nat × Nat)) (s : ssd1306)
    (h : reachable fonts_ stroke_pixels s) :
    s.display_buffer_[0]? = some 0x40 ∧
    s.display.i2c_ = s.i2c_ ++ [op_t.mk operation.write s.i2c_addr_ 385
      (0x40 :: (List.range 384).map s.screen_buffer_)] ∧
    s.display.display_buffer_ = s.display_buffer_ := by
  have hf := reachable_framed fonts_ stroke_pixels s h
  refine ⟨hf.2, ?_, rfl⟩
  simp only [display, framed_take s hf]
  rfl

/-- The freshly constructed driver after one `pixel` call is a reachable state. -/
theorem reachable_display_frame_witness :
    reachable sample_fonts (fun _ => []) ((ctor 60).pixel 3 10 color.white mode.normal) ∧
    (((ctor 60).pixel 3 10 color.white mode.normal).display_buffer_[0]? = some 0x40 ∧
    ((ctor 60).pixel 3 10 color.white mode.normal).display.i2c_
      = ((ctor 60).pixel 3 10 color.white mode.normal).i2c_ ++
        [op_t.mk operation.write ((ctor 60).pixel 3 10 color.white mode.normal).i2c_addr_ 385
          (0x40 :: (List.range 384).map
            ((ctor 60).pixel 3 10 color.white mode.normal).screen_buffer_)] ∧
    ((ctor 60).pixel 3 10 color.white mode.normal).display.display_buffer_
      = ((ctor 60).pixel 3 10 color.white mode.normal).display_buffer_) :=
  ⟨reachable.pixel 3 10 color.white mode.normal (reachable.ctor 60),
    reachable_display_frame sample_fonts (fun _ => []) _
      (reachable.pixel 3 10 color.white mode.normal (reachable.ctor 60))⟩

/-- C17: on a driver whose display array has its 385 cells and its data marker,
`start_` returns, and the transfers it submits are, in this order, display off, clock
divider `0xD5 0x80`, multiplex ratio `0xA8 0x2F`, display offset `0xD3 0x00`, start
line `0x40`, charge pump `0x8D 0x14`, normal polarity `0xA6`, resume `0xA4`, segment
remap `0xA1`, scan direction `0xC8`, common pins `0xDA 0x12`, contrast `0x81 0x8F`,
pre-charge `0xD9 0xF1`, VCOM deselect `0xDB 0x40`, addressing mode `0x20` then
`0x00`, column window `0x21 32 95`, page window `0x22 0 5`, the 385-byte frame
`0x40` followed by 384 zero bytes, and last display on `0x00 0xAF`; the framebuffer
is all zero afterwards. -/
theorem start_transfers (fonts_ : font_tables) (s : ssd1306)
    (hlen : s.display_buffer_.length = 385) (hhdr : s.display_buffer_[0]? = some 0x40) :
    ∃ t, start_ fonts_ s = Except.ok t ∧
      t.i2c_ = s.i2c_ ++ (List.map (fun b => op_t.mk operation.write s.i2c_addr_ b.length b)
        [[0x00, 0xAE], [0x00, 0xD5, 0x80], [0x00, 0xA8, 0x2F], [0x00, 0xD3, 0x00], [0x00, 0x40],
         [0x00, 0x8D, 0x14], [0x00, 0xA6], [0x00, 0xA4], [0x00, 0xA1], [0x00, 0xC8],
         [0x00, 0xDA, 0x12], [0x00, 0x81, 0x8F], [0x00, 0xD9, 0xF1], [0x00, 0xDB, 0x40],
         [0x00, 0x20], [0x00, 0x00], [0x00, 0x21, 32, 95], [0x00, 0x22, 0, 5],
         0x40 :: List.replicate 384 0, [0x00, 0xAF]]) ∧
      t.display_buffer_ = 0x40 :: List.replicate 384 0 := by
  have hft : ∃ r, fontType fonts_ s 0 = Except.ok r ∧ r.2.i2c_ = s.i2c_ ∧
      r.2.i2c_addr_ = s.i2c_addr_ ∧ r.2.display_buffer_ = s.display_buffer_ := by
    simp only [fontType, font_count_, fonts_at]
    exact ⟨_, rfl, rfl, rfl, rfl⟩
  obtain ⟨r, hr, hi, ha, hd⟩ := hft
  have hclr := clear_display_buffer (((r.2.drawColor color.white).drawMode mode.normal).cursor 0 0)
    0x40 (by simpa [cursor, drawMode, drawColor, hd] using hlen)
    (by simpa [cursor, drawMode, drawColor, hd] using hhdr)
  simp only [start_, hr]
  refine ⟨_, rfl, ?_, ?_⟩
  · rw [start_sequence_i2c, hclr]
    have htk : (64 :: List.replicate 384 0).take 385 = 64 :: List.replicate 384 0 := by
      apply List.take_of_length_le
      simp only [List.length_cons, List.length_replicate]
      exact Nat.le_refl _
    rw [htk]
    simp only [cursor, drawMode, drawColor, hi, ha, List.map_cons, List.map_nil, List.length_cons,
      List.length_nil, List.length_replicate]
  · rw [start_sequence_display_buffer, hclr]

/-- The freshly constructed driver has the 385 cells and the data marker. -/
theorem start_transfers_witness :
    (ctor 60).display_buffer_.length = 385 ∧ (ctor 60).display_buffer_[0]? = some 0x40 ∧
    ∃ t, start_ sample_fonts (ctor 60) = Except.ok t ∧
      t.i2c_ = (ctor 60).i2c_ ++
        (List.map (fun b => op_t.mk operation.write (ctor 60).i2c_addr_ b.length b)
        [[0x00, 0xAE], [0x00, 0xD5, 0x80], [0x00, 0xA8, 0x2F], [0x00, 0xD3, 0x00], [0x00, 0x40],
         [0x00, 0x8D, 0x14], [0x00, 0xA6], [0x00, 0xA4], [0x00, 0xA1], [0x00, 0xC8],
         [0x00, 0xDA, 0x12], [0x00, 0x81, 0x8F], [0x00, 0xD9, 0xF1], [0x00, 0xDB, 0x40],
         [0x00, 0x20], [0x00, 0x00], [0x00, 0x21, 32, 95], [0x00, 0x22, 0, 5],
         0x40 :: List.replicate 384 0, [0x00, 0xAF]]) ∧
      t.display_buffer_ = 0x40 :: List.replicate 384 0 :=
  ⟨ctor_length 60, (ctor_framed 60).2,
    start_transfers sample_fonts (ctor 60) (ctor_length 60) (ctor_framed 60).2⟩

/-- C18: `fontType(0)` and `fontType(1)`, the indices below the font count 2, return
the index and set the descriptor from the header of the selected table (width byte 0,
height byte 1, first character byte 2, total characters byte 3, row stride byte 4 plus
byte 5), so that `fontWidth()` and `fontHeight()` then return the header's width and
height; `fontType(t)` for every `t >= 2` stops at the `assert` with the driver, and so
the selected descriptor, unchanged. -/
theorem fontType_selects (fonts_ : font_tables) (s : ssd1306) :
    fontType fonts_ s 0 = Except.ok (0,
      { s with fontType_ := 0, fontWidth_ := fonts_.font5x7 0 % 256,
               fontHeight_ := fonts_.font5x7 1 % 256, fontStartChar_ := fonts_.font5x7 2 % 256,
               fontTotalChar_ := fonts_.font5x7 3 % 256,
               fontMapWidth_ := fonts_.font5x7 4 % 256 + fonts_.font5x7 5 % 256 }) ∧
    fontType fonts_ s 1 = Except.ok (1,
      { s with fontType_ := 1, fontWidth_ := fonts_.font8x16 0 % 256,
               fontHeight_ := fonts_.font8x16 1 % 256, fontStartChar_ := fonts_.font8x16 2 % 256,
               fontTotalChar_ := fonts_.font8x16 3 % 256,
               fontMapWidth_ := fonts_.font8x16 4 % 256 + fonts_.font8x16 5 % 256 }) ∧
    (∀ r, fontType fonts_ s 0 = Except.ok r →
      r.2.fontWidth = fonts_.font5x7 0 % 256 ∧ r.2.fontHeight = fonts_.font5x7 1 % 256) ∧
    (∀ r, fontType fonts_ s 1 = Except.ok r →
      r.2.fontWidth = fonts_.font8x16 0 % 256 ∧ r.2.fontHeight = fonts_.font8x16 1 % 256) ∧
    (∀ t, fontType fonts_ s (t + 2) = Except.error (fault.assertion s)) := by
  have h0 : (fonts_.font5x7 4 % 256 + fonts_.font5x7 5 % 256) % 65536
      = fonts_.font5x7 4 % 256 + fonts_.font5x7 5 % 256 := by omega
  have h1 : (fonts_.font8x16 4 % 256 + fonts_.font8x16 5 % 256) % 65536
      = fonts_.font8x16 4 % 256 + fonts_.font8x16 5 % 256 := by omega
  have e0 : fontType fonts_ s 0 = Except.ok (0,
      { s with fontType_ := 0, fontWidth_ := fonts_.font5x7 0 % 256,
               fontHeight_ := fonts_.font5x7 1 % 256, fontStartChar_ := fonts_.font5x7 2 % 256,
               fontTotalChar_ := fonts_.font5x7 3 % 256,
               fontMapWidth_ := fonts_.font5x7 4 % 256 + fonts_.font5x7 5 % 256 }) := by
    simp [fontType, font_count_, fonts_at, h0]
  have e1 : fontType fonts_ s 1 = Except.ok (1,
      { s with fontType_ := 1, fontWidth_ := fonts_.font8x16 0 % 256,
               fontHeight_ := fonts_.font8x16 1 % 256, fontStartChar_ := fonts_.font8x16 2 % 256,
               fontTotalChar_ := fonts_.font8x16 3 % 256,
               fontMapWidth_ := fonts_.font8x16 4 % 256 + fonts_.font8x16 5 % 256 }) := by
    simp [fontType, font_count_, fonts_at, h1]
  refine ⟨e0, e1, ?_, ?_, ?_⟩
  · intro r hr
    rw [e0] at hr
    cases hr
    exact ⟨rfl, rfl⟩
  · intro r hr
    rw [e1] at hr
    cases hr
    exact ⟨rfl, rfl⟩
  · intro t
    simp [fontType, font_count_]

/-- C19: for every centre `(x, y)`, radius `r`, colour and starting state,
`circleFill(x, y, r, c, XOR)` returns with the driver state, and so the framebuffer,
unchanged. -/
theorem circleFill_XOR_noop (s : ssd1306) (x y radius : Nat) (c : color) :
    s.circleFill x y radius c mode.XOR = Except.ok s := by
  simp [circleFill]

theorem foldl_pixel_eq_draw (c : color) (m : mode) : ∀ (ps : List (Nat × Nat)) (s : ssd1306),
    ps.foldl (fun t p => t.pixel p.1 p.2 c m) s = s.draw m (ps.map (fun p => (p.1, p.2, c))) := by
  intro ps
  induction ps with
  | nil => intro s; rfl
  | cons p ps ih =>
    intro s
    simp only [List.foldl_cons, List.map_cons, draw_cons]
    exact ih _

theorem circle_pixels_10_2_3 :
    circle_pixels 10 2 3 = Except.ok
      [(10, 5), (10, 255), (13, 2), (7, 2), (11, 5), (9, 5), (11, 255), (9, 255), (13, 3), (7, 3),
       (13, 1), (7, 1), (12, 4), (8, 4), (12, 0), (8, 0), (12, 4), (8, 4), (12, 0), (8, 0)] := by
  rfl

theorem circleFill_pixels_10_2_3 :
    circleFill_pixels 10 2 3 = Except.ok
      [(13, 1), (7, 1), (13, 2), (7, 2), (13, 3), (7, 3), (12, 0), (8, 0), (12, 1), (8, 1),
       (12, 2), (8, 2), (12, 3), (8, 3), (12, 4), (8, 4), (12, 0), (8, 0), (12, 1), (8, 1),
       (12, 2), (8, 2), (12, 3), (8, 3), (12, 4), (8, 4)] := by
  rfl

theorem circle_of_pixels (s : ssd1306) (x y radius : Nat) (c : color) (m : mode)
    (ps : List (Nat × Nat)) (h : circle_pixels x y radius = Except.ok ps) :
    s.circle x y radius c m = Except.ok (s.draw m (ps.map (fun p => (p.1, p.2, c)))) := by
  simp only [circle, h, Except.map]
  rw [foldl_pixel_eq_draw]

theorem circleFill_of_pixels (s : ssd1306) (x y radius : Nat) (c : color)
    (ps : List (Nat × Nat)) (h : circleFill_pixels x y radius = Except.ok ps) :
    s.circleFill x y radius c mode.normal
      = Except.ok (s.draw mode.normal (ps.map (fun p => (p.1, p.2, c)))) := by
  simp only [circleFill, h, Except.map, reduceCtorEq, if_false]
  rw [foldl_pixel_eq_draw]

theorem midpoint_fits_small : ∀ r, r < 64 → midpoint_fits r = true := by
  decide

theorem toInt8_of_in_int8 (z : Int) (h : in_int8 z = true) : toInt8 z = z := by
  simp only [in_int8, decide_eq_true_eq] at h
  unfold toInt8
  omega

theorem midpoint_steps_mono : ∀ (n k : Nat) (f ddF_x ddF_y x1 y1 : Int)
    (steps : List (Int × Int × Int × Int × Int × Int)),
    midpoint_steps n f ddF_x ddF_y x1 y1 = some steps →
    midpoint_steps (n + k) f ddF_x ddF_y x1 y1 = some steps := by
  intro n
  induction n with
  | zero => intro k f ddF_x ddF_y x1 y1 steps h; cases h
  | succ n ih =>
    intro k f ddF_x ddF_y x1 y1 steps h
    have hk : n + 1 + k = (n + k) + 1 := by omega
    rw [hk]
    unfold midpoint_steps at h ⊢
    by_cases hlt : x1 < y1
    · simp only [hlt, if_true] at h ⊢
      rw [Option.map_eq_some'] at h
      obtain ⟨rest, hrest, hcons⟩ := h
      rw [ih k _ _ _ _ _ rest hrest]
      exact congrArg some hcons
    · simp only [hlt, if_false] at h ⊢
      exact h

theorem circle_loop_refines (x y : Nat) : ∀ (fuel : Nat) (f ddF_x ddF_y x1 y1 : Int)
    (steps : List (Int × Int × Int × Int × Int × Int)),
    midpoint_steps fuel f ddF_x ddF_y x1 y1 = some steps →
    steps.all step_in_int8 = true →
    circle_loop x y fuel f ddF_x ddF_y x1 y1
      = Except.ok (steps.flatMap (fun st => octant_points x y st.2.2.2.1 st.2.2.2.2.1)) := by
  intro fuel
  induction fuel with
  | zero => intro f ddF_x ddF_y x1 y1 steps h; cases h
  | succ n ih =>
    intro f ddF_x ddF_y x1 y1 steps h hall
    unfold midpoint_steps at h
    unfold circle_loop
    by_cases hlt : x1 < y1
    · simp only [hlt, if_true] at h ⊢
      rw [Option.map_eq_some'] at h
      obtain ⟨rest, hrest, hcons⟩ := h
      subst hcons
      simp only [List.all_cons, Bool.and_eq_true, step_in_int8] at hall
      obtain ⟨⟨⟨⟨⟨⟨hfb, hdx⟩, hdy⟩, hx1⟩, hy1⟩, hfa⟩, hrestall⟩ := hall
      have ey : (if f ≥ 0 then toInt8 (y1 - 1) else y1) = (if f ≥ 0 then y1 - 1 else y1) := by
        by_cases hf : f ≥ 0
        · simp only [hf, if_true] at hy1 ⊢
          exact toInt8_of_in_int8 _ hy1
        · simp only [hf, if_false]
      have edy : (if f ≥ 0 then toInt8 (ddF_y + 2) else ddF_y)
          = (if f ≥ 0 then ddF_y + 2 else ddF_y) := by
        by_cases hf : f ≥ 0
        · simp only [hf, if_true] at hdy ⊢
          exact toInt8_of_in_int8 _ hdy
        · simp only [hf, if_false]
      rw [ey, edy]
      have efa : (if f ≥ 0 then toInt8 (f + (if f ≥ 0 then ddF_y + 2 else ddF_y)) else f)
          = (if f ≥ 0 then f + (if f ≥ 0 then ddF_y + 2 else ddF_y) else f) := by
        by_cases hf : f ≥ 0
        · simp only [hf, if_true] at hfa ⊢
          exact toInt8_of_in_int8 _ hfa
        · simp only [hf, if_false]
      rw [efa, toInt8_of_in_int8 _ hx1, toInt8_of_in_int8 _ hdx, toInt8_of_in_int8 _ hfb]
      rw [ih _ _ _ _ _ rest hrest hrestall]
      rfl
    · simp only [hlt, if_false] at h ⊢
      cases h
      rfl

theorem toInt8_of_range (z : Int) (h1 : -128 ≤ z) (h2 : z ≤ 127) : toInt8 z = z := by
  unfold toInt8
  omega

theorem line_loop_spec (steep : Bool) (xe dx dy : Nat) (ystep : Int) (ye lo hi : Nat)
    (hxe : xe < 256) (hdx : dx ≤ 127) (hdy : dy ≤ dx) (hstep : ystep = 1 ∨ ystep = -1)
    (hlo : lo ≤ ye) (hhi : ye ≤ hi) (hhi8 : hi < 256) :
    ∀ (M fuel x y : Nat) (err : Int) (Rem : Nat),
      x + M = xe → M < fuel → 0 ≤ err → err < dx →
      (Rem : Int) * dx + err = ((dx / 2 : Nat) : Int) + (M : Int) * dy →
      (y : Int) + ystep * Rem = ye → lo ≤ y → y ≤ hi →
      ∃ ps, line_loop steep xe dx dy ystep fuel x y err = some ps ∧
        ps.map (fun p => if steep then p.2 else p.1) = List.range' x M ∧
        (∀ p ∈ ps, lo ≤ (if steep then p.1 else p.2) ∧ (if steep then p.1 else p.2) ≤ hi) ∧
        ∀ yp : Nat, yp ≤ y + 1 → y ≤ yp + 1 →
          List.Chain (fun a b : Nat => b ≤ a + 1 ∧ a ≤ b + 1) yp
            (ps.map (fun p => if steep then p.1 else p.2)) := by
  intro M
  induction M with
  | zero =>
    intro fuel x y err Rem hx hf _ _ _ _ _ _
    obtain ⟨g, rfl⟩ : ∃ g, fuel = g + 1 := ⟨fuel - 1, by omega⟩
    refine ⟨[], line_loop_done _ _ _ _ _ g _ _ _ (by omega), rfl, ?_, ?_⟩
    · intro p hp; cases hp
    · intro yp _ _; exact List.Chain.nil
  | succ M ih =>
    intro fuel x y err Rem hx hf herr0 herr1 hinv hy hylo hyhi
    obtain ⟨g, rfl⟩ : ∃ g, fuel = g + 1 := ⟨fuel - 1, by omega⟩
    have hlt : x < xe := by omega
    have hx1 : toUInt8 ((x : Int) + 1) = x + 1 := by
      have := toUInt8_of_lt (x + 1) (by omega)
      simpa using this
    have he1 : toInt8 (err - (dy : Int)) = err - dy := toInt8_of_range _ (by omega) (by omega)
    have hM : ((M + 1 : Nat) : Int) * dy = (M : Int) * dy + dy := by push_cast; ring
    rw [hM] at hinv
    have hB : 0 ≤ (M : Int) * dy := by positivity
    unfold line_loop
    simp only [hlt, if_true, he1, hx1]
    by_cases hneg : err - (dy : Int) < 0
    · simp only [hneg, if_true]
      have hRem : Rem ≠ 0 := by
        intro h0
        rw [h0] at hinv
        simp only [Nat.cast_zero, zero_mul, zero_add] at hinv
        have : (0 : Int) ≤ ((dx / 2 : Nat) : Int) := by positivity
        omega
      obtain ⟨R, rfl⟩ : ∃ R, Rem = R + 1 := ⟨Rem - 1, by omega⟩
      have hR : ((R + 1 : Nat) : Int) * dx = (R : Int) * dx + dx := by push_cast; ring
      have hRy : ystep * ((R + 1 : Nat) : Int) = ystep * R + ystep := by push_cast; ring
      rw [hR] at hinv
      rw [hRy] at hy
      have hA : 0 ≤ (R : Int) * dx := by positivity
      have hC : 0 ≤ (R : Int) := by positivity
      have he2 : toInt8 (err - (dy : Int) + (dx : Int)) = err - dy + dx :=
        toInt8_of_range _ (by omega) (by omega)
      have hyrange : 0 ≤ (y : Int) + ystep ∧ (y : Int) + ystep < 256 ∧
          (lo : Int) ≤ (y : Int) + ystep ∧ (y : Int) + ystep ≤ hi := by
        rcases hstep with h1 | h1
        · rw [h1] at hy ⊢
          have : (1 : Int) * R = R := by ring
          rw [this] at hy
          omega
        · rw [h1] at hy ⊢
          have : (-1 : Int) * R = -R := by ring
          rw [this] at hy
          omega
      obtain ⟨y2, hy2⟩ : ∃ y2 : Nat, (y2 : Int) = (y : Int) + ystep :=
        ⟨((y : Int) + ystep).toNat, by omega⟩
      have hy2u : toUInt8 ((y : Int) + ystep) = y2 := by
        unfold toUInt8
        omega
      rw [hy2u, he2]
      obtain ⟨ps, hps, hmaj, hmin, hch⟩ := ih g (x + 1) y2 (err - dy + dx) R (by omega)
        (by omega) (by omega) (by omega) (by omega) (by rw [hy2]; omega) (by omega) (by omega)
      refine ⟨(if steep then (y, x) else (x, y)) :: ps, by rw [hps]; rfl, ?_, ?_, ?_⟩
      · rw [List.map_cons, hmaj, List.range'_succ]
        cases steep <;> rfl
      · intro p hp
        rcases List.mem_cons.1 hp with rfl | hp2
        · cases steep <;> exact ⟨hylo, hyhi⟩
        · exact hmin p hp2
      · intro yp h1 h2
        rw [List.map_cons]
        have hfirst : (if steep then (if steep then (y, x) else (x, y)).1
            else (if steep then (y, x) else (x, y)).2) = y := by
          cases steep <;> rfl
        rw [hfirst]
        refine List.Chain.cons ⟨h2, h1⟩ (hch y ?_ ?_)
        · rcases hstep with h3 | h3 <;> (rw [h3] at hy2; omega)
        · rcases hstep with h3 | h3 <;> (rw [h3] at hy2; omega)
    · simp only [hneg, if_false]
      obtain ⟨ps, hps, hmaj, hmin, hch⟩ := ih g (x + 1) y (err - dy) Rem (by omega)
        (by omega) (by omega) (by omega) (by omega) hy hylo hyhi
      refine ⟨(if steep then (y, x) else (x, y)) :: ps, by rw [hps]; rfl, ?_, ?_, ?_⟩
      · rw [List.map_cons, hmaj, List.range'_succ]
        cases steep <;> rfl
      · intro p hp
        rcases List.mem_cons.1 hp with rfl | hp2
        · cases steep <;> exact ⟨hylo, hyhi⟩
        · exact hmin p hp2
      · intro yp h1 h2
        rw [List.map_cons]
        have hfirst : (if steep then (if steep then (y, x) else (x, y)).1
            else (if steep then (y, x) else (x, y)).2) = y := by
          cases steep <;> rfl
        rw [hfirst]
        exact List.Chain.cons ⟨h2, h1⟩ (hch y (by omega) (by omega))

theorem line_loop_errs_range (xe dx dy : Nat) (hdx : dx ≤ 127) (hdy : dy ≤ dx) :
    ∀ (fuel x : Nat) (err : Int), 0 ≤ err → err < dx →
      ∀ v ∈ line_loop_errs xe dx dy fuel x err, -128 ≤ v ∧ v ≤ 127 := by
  intro fuel
  induction fuel with
  | zero =>
    intro x err _ _ v hv
    simp only [line_loop_errs, List.not_mem_nil] at hv
  | succ g ih =>
    intro x err h0 h1 v hv
    have he1 : toInt8 (err - (dy : Int)) = err - dy := toInt8_of_range _ (by omega) (by omega)
    unfold line_loop_errs at hv
    rw [he1] at hv
    by_cases hlt : x < xe
    · simp only [hlt, if_true] at hv
      by_cases hneg : err - (dy : Int) < 0
      · simp only [hneg, if_true, List.mem_cons] at hv
        have he2 : toInt8 (err - (dy : Int) + (dx : Int)) = err - dy + dx :=
          toInt8_of_range _ (by omega) (by omega)
        rw [he2] at hv
        rcases hv with rfl | rfl | hv
        · omega
        · omega
        · exact ih _ _ (by omega) (by omega) v hv
      · simp only [hneg, if_false, List.mem_cons] at hv
        rcases hv with rfl | hv
        · omega
        · exact ih _ _ (by omega) (by omega) v hv
    · simp only [hlt, if_false, List.not_mem_nil] at hv

theorem line_loop_errs_done (xe dx dy fuel x : Nat) (err : Int) (h : ¬ x < xe) :
    line_loop_errs xe dx dy fuel x err = [] := by
  cases fuel with
  | zero => rfl
  | succ g => simp only [line_loop_errs, h, if_false]

theorem line_run (steep : Bool) (xs xe ys ye : Nat) (hle : xs ≤ xe) (hxe : xe < 128)
    (hys : ys < 256) (hye : ye < 256) (hslope : Int.natAbs ((ye : Int) - ys) ≤ xe - xs) :
    (∃ ps, line_loop steep xe (toUInt8 ((xe : Int) - xs)) (toUInt8 (Int.natAbs ((ye : Int) - ys)))
          (if ys < ye then 1 else -1) 256 xs ys
          (toInt8 ((toUInt8 ((xe : Int) - xs) >>> 1 : Nat) : Int)) = some ps ∧
        ps.map (fun p => if steep then p.2 else p.1) = List.range' xs (xe - xs) ∧
        (∀ p ∈ ps, min ys ye ≤ (if steep then p.1 else p.2) ∧
          (if steep then p.1 else p.2) ≤ max ys ye) ∧
        List.Chain' (fun a b : Nat => b ≤ a + 1 ∧ a ≤ b + 1)
          (ps.map (fun p => if steep then p.1 else p.2))) ∧
      ∀ v ∈ ((toUInt8 ((xe : Int) - xs) >>> 1 : Nat) : Int) ::
          line_loop_errs xe (toUInt8 ((xe : Int) - xs)) (toUInt8 (Int.natAbs ((ye : Int) - ys)))
            256 xs (toInt8 ((toUInt8 ((xe : Int) - xs) >>> 1 : Nat) : Int)),
        -128 ≤ v ∧ v ≤ 127 := by
  have hdx : toUInt8 ((xe : Int) - xs) = xe - xs := toUInt8_sub_nat xe xs hle (by omega)
  have hdy : toUInt8 (Int.natAbs ((ye : Int) - ys)) = Int.natAbs ((ye : Int) - ys) :=
    toUInt8_of_lt _ (by omega)
  have hsh : (xe - xs) >>> 1 = (xe - xs) / 2 := by
    rw [Nat.shiftRight_eq_div_pow, pow_one]
  have herr : toInt8 (((xe - xs) / 2 : Nat) : Int) = ((xe - xs) / 2 : Nat) :=
    toInt8_of_range _ (by omega) (by omega)
  rw [hdx, hdy, hsh, herr]
  by_cases hz : xs = xe
  · subst hz
    refine ⟨⟨[], line_loop_done _ _ _ _ _ 255 _ _ _ (lt_irrefl xs), ?_, ?_, List.chain'_nil⟩, ?_⟩
    · simp only [List.map_nil, Nat.sub_self, List.range'_zero]
    · intro p hp; cases hp
    · intro v hv
      rw [line_loop_errs_done _ _ _ _ _ _ (lt_irrefl xs)] at hv
      simp only [Nat.sub_self, Nat.zero_div, Nat.cast_zero, List.mem_singleton] at hv
      omega
  · constructor
    · have hstep : (if ys < ye then (1 : Int) else -1) = 1 ∨ (if ys < ye then (1 : Int) else -1) = -1 := by
        split_ifs
        · exact Or.inl rfl
        · exact Or.inr rfl
      obtain ⟨ps, hps, hmaj, hmin, hch⟩ := line_loop_spec steep xe (xe - xs)
        (Int.natAbs ((ye : Int) - ys)) (if ys < ye then 1 else -1) ye (min ys ye) (max ys ye)
        (by omega) (by omega) hslope hstep (by omega) (by omega) (by omega)
        (xe - xs) 256 xs ys (((xe - xs) / 2 : Nat) : Int) (Int.natAbs ((ye : Int) - ys))
        (by omega) (by omega) (by omega) (by omega) (by ring)
        (by split_ifs <;> omega) (by omega) (by omega)
      refine ⟨ps, hps, hmaj, hmin, ?_⟩
      have hc : List.Chain' (fun a b : Nat => b ≤ a + 1 ∧ a ≤ b + 1)
          (ys :: ps.map (fun p => if steep then p.1 else p.2)) := hch ys (by omega) (by omega)
      exact hc.tail
    · intro v hv
      rcases List.mem_cons.1 hv with rfl | hv
      · omega
      · exact line_loop_errs_range xe (xe - xs) _ (by omega) hslope 256 xs _ (by omega)
          (by omega) v hv

theorem map_ite_true {α β : Type} (f g : α → β) (l : List α) :
    l.map (fun p => if true = true then f p else g p) = l.map f := by
  simp only [if_true]

theorem map_ite_false {α β : Type} (f g : α → β) (l : List α) :
    l.map (fun p => if false = true then f p else g p) = l.map g := by
  simp only [Bool.false_eq_true, if_false]

theorem line_cases (x0 y0 x1 y1 : Nat) (hx0 : x0 < 64) (hy0 : y0 < 48) (hx1 : x1 < 64)
    (hy1 : y1 < 48) :
    ∃ ps, line_pixels x0 y0 x1 y1 = some ps ∧
      (Int.natAbs ((y1 : Int) - y0) ≤ Int.natAbs ((x1 : Int) - x0) →
        ps.map Prod.fst = List.range' (min x0 x1) (max x0 x1 - min x0 x1) ∧
        List.Chain' (fun a b : Nat => b ≤ a + 1 ∧ a ≤ b + 1) (ps.map Prod.snd)) ∧
      (Int.natAbs ((x1 : Int) - x0) < Int.natAbs ((y1 : Int) - y0) →
        ps.map Prod.snd = List.range' (min y0 y1) (max y0 y1 - min y0 y1) ∧
        List.Chain' (fun a b : Nat => b ≤ a + 1 ∧ a ≤ b + 1) (ps.map Prod.fst)) ∧
      (∀ p ∈ ps, min x0 x1 ≤ p.1 ∧ p.1 ≤ max x0 x1 ∧ min y0 y1 ≤ p.2 ∧ p.2 ≤ max y0 y1) ∧
      (∀ v ∈ line_errs x0 y0 x1 y1, -128 ≤ v ∧ v ≤ 127) := by
  by_cases hs : Int.natAbs ((y1 : Int) - y0) > Int.natAbs ((x1 : Int) - x0)
  · by_cases hw : y0 > y1
    · obtain ⟨⟨ps, hps, hmaj, hmin, hch⟩, herrs⟩ := line_run true y1 y0 x1 x0 (by omega)
        (by omega) (by omega) (by omega) (by omega)
      rw [map_ite_true] at hmaj hch
      have hmem : ∀ p ∈ ps, y1 ≤ p.2 ∧ p.2 < y1 + (y0 - y1) := by
        intro p hp
        have := List.mem_map_of_mem Prod.snd hp
        rw [hmaj] at this
        exact List.mem_range'_1.1 this
      refine ⟨ps, ?_, ?_, ?_, ?_, ?_⟩
      · simp only [line_pixels, hs, decide_True, if_true, hw, if_true]
        exact hps
      · intro h; omega
      · intro _
        refine ⟨?_, hch⟩
        rw [hmaj, Nat.min_eq_right (by omega), Nat.max_eq_left (by omega)]
      · intro p hp
        have h1 := hmem p hp
        have h2 := hmin p hp
        simp only [if_true] at h2
        omega
      · simp only [line_errs, hs, decide_True, if_true, hw, if_true]
        exact herrs
    · obtain ⟨⟨ps, hps, hmaj, hmin, hch⟩, herrs⟩ := line_run true y0 y1 x0 x1 (by omega)
        (by omega) (by omega) (by omega) (by omega)
      rw [map_ite_true] at hmaj hch
      have hmem : ∀ p ∈ ps, y0 ≤ p.2 ∧ p.2 < y0 + (y1 - y0) := by
        intro p hp
        have := List.mem_map_of_mem Prod.snd hp
        rw [hmaj] at this
        exact List.mem_range'_1.1 this
      refine ⟨ps, ?_, ?_, ?_, ?_, ?_⟩
      · simp only [line_pixels, hs, decide_True, if_true, hw, if_false]
        exact hps
      · intro h; omega
      · intro _
        refine ⟨?_, hch⟩
        rw [hmaj, Nat.min_eq_left (by omega), Nat.max_eq_right (by omega)]
      · intro p hp
        have h1 := hmem p hp
        have h2 := hmin p hp
        simp only [if_true] at h2
        omega
      · simp only [line_errs, hs, decide_True, if_true, hw, if_false]
        exact herrs
  · by_cases hw : x0 > x1
    · obtain ⟨⟨ps, hps, hmaj, hmin, hch⟩, herrs⟩ := line_run false x1 x0 y1 y0 (by omega)
        (by omega) (by omega) (by omega) (by omega)
      rw [map_ite_false] at hmaj hch
      have hmem : ∀ p ∈ ps, x1 ≤ p.1 ∧ p.1 < x1 + (x0 - x1) := by
        intro p hp
        have := List.mem_map_of_mem Prod.fst hp
        rw [hmaj] at this
        exact List.mem_range'_1.1 this
      refine ⟨ps, ?_, ?_, ?_, ?_, ?_⟩
      · simp only [line_pixels, hs, decide_False, Bool.false_eq_true, if_false, hw, if_true]
        exact hps
      · intro _
        refine ⟨?_, hch⟩
        rw [hmaj, Nat.min_eq_right (by omega), Nat.max_eq_left (by omega)]
      · intro h; omega
      · intro p hp
        have h1 := hmem p hp
        have h2 := hmin p hp
        simp only [Bool.false_eq_true, if_false] at h2
        omega
      · simp only [line_errs, hs, decide_False, Bool.false_eq_true, if_false, hw, if_true]
        exact herrs
    · obtain ⟨⟨ps, hps, hmaj, hmin, hch⟩, herrs⟩ := line_run false x0 x1 y0 y1 (by omega)
        (by omega) (by omega) (by omega) (by omega)
      rw [map_ite_false] at hmaj hch
      have hmem : ∀ p ∈ ps, x0 ≤ p.1 ∧ p.1 < x0 + (x1 - x0) := by
        intro p hp
        have := List.mem_map_of_mem Prod.fst hp
        rw [hmaj] at this
        exact List.mem_range'_1.1 this
      refine ⟨ps, ?_, ?_, ?_, ?_, ?_⟩
      · simp only [line_pixels, hs, decide_False, Bool.false_eq_true, if_false, hw, if_false]
        exact hps
      · intro _
        refine ⟨?_, hch⟩
        rw [hmaj, Nat.min_eq_left (by omega), Nat.max_eq_right (by omega)]
      · intro h; omega
      · intro p hp
        have h1 := hmem p hp
        have h2 := hmin p hp
        simp only [Bool.false_eq_true, if_false] at h2
        omega
      · simp only [line_errs, hs, decide_False, Bool.false_eq_true, if_false, hw, if_false]
        exact herrs

theorem drawCharMultiRow_pixels_eq (fonts_ : font_tables) (s : ssd1306) (x y g : Nat)
    (c : color) (table : Nat → Nat) (hfont : fonts_at fonts_ s.fontType_ = some table)
    (hw0 : 0 < s.fontWidth_) (hw : s.fontWidth_ ≤ 255) (hh : s.fontHeight_ / 8 ≤ 255)
    (hmw : s.fontWidth_ ≤ s.fontMapWidth_) (hmw16 : s.fontMapWidth_ < 65536) (hg : g < 65536) :
    drawCharMultiRow_pixels fonts_ s x y g c
      = Except.ok ((List.range' 0 (s.fontHeight_ / 8)).flatMap (fun row =>
          cell_calls x (y + row * 8) s.fontWidth_ (fun i j =>
            bit_color (table (6 + (((g / (s.fontMapWidth_ / s.fontWidth_)) * s.fontMapWidth_
                  * (s.fontHeight_ / 8)
                + (g % (s.fontMapWidth_ / s.fontWidth_)) * s.fontWidth_) % 65536
              + i + row * s.fontMapWidth_)) % 256) j c))) := by
  have hcpr0 : 0 < s.fontMapWidth_ / s.fontWidth_ := Nat.div_pos hmw hw0
  have hcprle : s.fontMapWidth_ / s.fontWidth_ ≤ s.fontMapWidth_ := Nat.div_le_self _ _
  have hcpr : (s.fontMapWidth_ / s.fontWidth_) % 65536 = s.fontMapWidth_ / s.fontWidth_ :=
    Nat.mod_eq_of_lt (by omega)
  have hcol : (g % (s.fontMapWidth_ / s.fontWidth_)) % 65536
      = g % (s.fontMapWidth_ / s.fontWidth_) :=
    Nat.mod_eq_of_lt (lt_of_le_of_lt (Nat.mod_le _ _) hg)
  have hrowp : (g / (s.fontMapWidth_ / s.fontWidth_)) % 65536
      = g / (s.fontMapWidth_ / s.fontWidth_) :=
    Nat.mod_eq_of_lt (lt_of_le_of_lt (Nat.div_le_self _ _) hg)
  have hB : BITS_PER_ROW = 8 := rfl
  have hF : FONT_HEADER_SIZE = 6 := rfl
  unfold drawCharMultiRow_pixels
  simp only [hB, hF, hcpr, hcol, hrowp, Nat.pos_iff_ne_zero.1 hw0, Nat.pos_iff_ne_zero.1 hcpr0,
    if_false]
  refine for_uint8_lt (s.fontHeight_ / 8) hh _ _ ?_ (s.fontHeight_ / 8) 0 257 (by omega)
    (by omega)
  intro row _
  unfold cell_calls
  refine for_uint8_lt s.fontWidth_ hw _ _ ?_ s.fontWidth_ 0 257 (by omega) (by omega)
  intro i _
  simp only [font_byte, hfont, glyph_byte_eq]

theorem drawChar_multi_row_eq (fonts_ : font_tables) (s : ssd1306) (x y ch : Nat) (c : color)
    (m : mode) (table : Nat → Nat) (hfont : fonts_at fonts_ s.fontType_ = some table)
    (hrow : 2 ≤ s.fontHeight_ / 8) (hh : s.fontHeight_ < 256)
    (hw0 : 0 < s.fontWidth_) (hw : s.fontWidth_ < 256)
    (hmw : s.fontWidth_ ≤ s.fontMapWidth_) (hmw16 : s.fontMapWidth_ < 65536) (hch8 : ch < 256)
    (hlo : s.fontStartChar_ ≤ ch) (hhi : ch + 1 < s.fontStartChar_ + s.fontTotalChar_) :
    drawCharMultiRow_pixels fonts_ s x y (ch - s.fontStartChar_) c
      = Except.ok ((List.range' 0 (s.fontHeight_ / 8)).flatMap (fun row =>
          cell_calls x (y + row * 8) s.fontWidth_ (fun i j =>
            bit_color (table (6 + ((((ch - s.fontStartChar_) / (s.fontMapWidth_ / s.fontWidth_))
                  * s.fontMapWidth_ * (s.fontHeight_ / 8)
                + ((ch - s.fontStartChar_) % (s.fontMapWidth_ / s.fontWidth_)) * s.fontWidth_)
                  % 65536
              + i + row * s.fontMapWidth_)) % 256) j c))) ∧
    drawChar fonts_ s x y ch c m
      = (drawCharMultiRow_pixels fonts_ s x y (ch - s.fontStartChar_) c).map (s.draw m) := by
  refine ⟨drawCharMultiRow_pixels_eq fonts_ s x y _ c table hfont hw0 (by omega) (by omega) hmw
    hmw16 (by omega), ?_⟩
  have hcond : ch ≥ s.fontStartChar_ ∧
      (ch : Int) < (s.fontStartChar_ : Int) + (s.fontTotalChar_ : Int) - 1 := by
    constructor
    · exact hlo
    · omega
  have hg : toUInt8 ((ch : Int) - (s.fontStartChar_ : Int)) = ch - s.fontStartChar_ :=
    toUInt8_sub_nat ch s.fontStartChar_ hlo hch8
  have hrow2 : ¬ s.fontHeight_ / BITS_PER_ROW ≤ 1 := by
    have hB : BITS_PER_ROW = 8 := rfl
    rw [hB]
    omega
  simp only [drawChar, hcond, and_self, if_true, hrow2, if_false, drawCharMultiRow, hg]

theorem mem_rows_calls (x y n rows : Nat) (col : Nat → Nat → Nat → color)
    (p : Nat × Nat × color) (hx : x + n ≤ 64) (hy : y + 8 * rows ≤ 48) :
    p ∈ (List.range' 0 rows).flatMap (fun row => cell_calls x (y + row * 8) n (col row))
      ↔ ∃ row i j, row < rows ∧ i < n ∧ j < 8 ∧ p = (x + i, y + 8 * row + j, col row i j) := by
  simp only [List.mem_flatMap, List.mem_range'_1]
  constructor
  · rintro ⟨row, ⟨_, hrow⟩, hp⟩
    rw [mem_cell_calls x (y + row * 8) n (col row) p hx (by omega)] at hp
    obtain ⟨i, j, hi, hj, rfl⟩ := hp
    refine ⟨row, i, j, by omega, hi, hj, ?_⟩
    have e : y + row * 8 + j = y + 8 * row + j := by omega
    rw [e]
  · rintro ⟨row, i, j, hrow, hi, hj, rfl⟩
    refine ⟨row, ⟨by omega, by omega⟩, ?_⟩
    rw [mem_cell_calls x (y + row * 8) n (col row) _ hx (by omega)]
    refine ⟨i, j, hi, hj, ?_⟩
    have e : y + row * 8 + j = y + 8 * row + j := by omega
    rw [e]

theorem draw_rows (s : ssd1306) (x y n rows : Nat) (col : Nat → Nat → Nat → color) (hs : s.wf)
    (hx : x + n ≤ 64) (hy : y + 8 * rows ≤ 48) :
    (∀ row i j, row < rows → i < n → j < 8 →
      (s.draw mode.normal ((List.range' 0 rows).flatMap
          (fun row => cell_calls x (y + row * 8) n (col row)))).lit (x + i) (y + 8 * row + j)
        = decide (col row i j = color.white)) ∧
    (∀ a b, a < 64 → ¬ (x ≤ a ∧ a < x + n ∧ y ≤ b ∧ b < y + 8 * rows) →
      (s.draw mode.normal ((List.range' 0 rows).flatMap
          (fun row => cell_calls x (y + row * 8) n (col row)))).lit a b = s.lit a b) := by
  constructor
  · intro row i j hrow hi hj
    apply draw_normal_lit (x + i) (y + 8 * row + j) (col row i j) (by omega) (by omega) _ s hs
    · intro p hp h1 h2
      rw [mem_rows_calls x y n rows col p hx hy] at hp
      obtain ⟨row2, i2, j2, _, _, _, rfl⟩ := hp
      simp only at h1 h2
      have e1 : i = i2 := by omega
      have e2 : j = j2 := by omega
      have e3 : row = row2 := by omega
      rw [e1, e2, e3]
    · right
      refine ⟨(x + i, y + 8 * row + j, col row i j), ?_, rfl, rfl⟩
      rw [mem_rows_calls x y n rows col _ hx hy]
      exact ⟨row, i, j, hrow, hi, hj, rfl⟩
  · intro a b ha hout
    apply draw_unchanged mode.normal a b ha _ s hs
    intro p hp hab
    rw [mem_rows_calls x y n rows col p hx hy] at hp
    obtain ⟨row, i, j, hrow, hi, hj, rfl⟩ := hp
    simp only at hab
    apply hout
    omega

theorem nodup_flatMap_range {β : Type} (n : Nat) (f : Nat → List β) (key : β → Nat)
    (hkey : ∀ i, i < n → ∀ b ∈ f i, key b = i) (hnd : ∀ i, i < n → (f i).Nodup) :
    ((List.range' 0 n).flatMap f).Nodup := by
  rw [List.nodup_flatMap]
  constructor
  · intro i hi
    exact hnd i (by have := List.mem_range'_1.1 hi; omega)
  · refine (List.pairwise_lt_range' 0 n).imp_of_mem ?_
    intro a b ha hb hlt q hqa hqb
    have h1 := hkey a (by have := List.mem_range'_1.1 ha; omega) q hqa
    have h2 := hkey b (by have := List.mem_range'_1.1 hb; omega) q hqb
    omega

theorem rows_positions_nodup (x y n rows : Nat) (col : Nat → Nat → Nat → color)
    (hn : n ≤ 256) (hrows : 8 * rows ≤ 256) :
    (((List.range' 0 rows).flatMap (fun row => cell_calls x (y + row * 8) n (col row))).map
      (fun p => (p.1, p.2.1))).Nodup := by
  simp only [cell_calls, List.map_flatMap, List.map_cons, List.map_nil]
  apply nodup_flatMap_range rows _ (fun q => ((q.2 + 256 - y % 256) % 256) / 8)
  · intro row hrow b hb
    simp only [List.mem_flatMap, List.mem_range'_1, List.mem_singleton] at hb
    obtain ⟨i, _, j, ⟨_, hj⟩, rfl⟩ := hb
    simp only [toUInt8]
    omega
  · intro row hrow
    apply nodup_flatMap_range n _ (fun q => (q.1 + 256 - x % 256) % 256)
    · intro i hi b hb
      simp only [List.mem_flatMap, List.mem_range'_1, List.mem_singleton] at hb
      obtain ⟨j, ⟨_, hj⟩, rfl⟩ := hb
      simp only [toUInt8]
      omega
    · intro i hi
      apply nodup_flatMap_range 8 _ (fun q => (q.2 + 256 - (y + row * 8) % 256) % 256)
      · intro j hj b hb
        simp only [List.mem_singleton] at hb
        subst hb
        simp only [toUInt8]
        omega
      · intro j _
        exact List.nodup_singleton _

theorem bit_color_eq (temp j : Nat) (c : color) :
    bit_color temp j c = if temp.testBit j then c else set_color c := by
  have hb : ((temp >>> j) &&& 0x1 = 0) ↔ temp.testBit j = false := by
    simp [Nat.testBit, Nat.and_comm]
  unfold bit_color
  cases hbit : temp.testBit j
  · rw [if_pos (hb.2 hbit)]
    simp
  · have hn : ¬ ((temp >>> j) &&& 0x1 = 0) := by
      intro h0
      rw [hb.1 h0] at hbit
      cases hbit
    rw [if_neg hn]
    simp

theorem toUInt8_nat (n : Nat) : toUInt8 (n : Int) = n % 256 := by
  unfold toUInt8
  omega

theorem sample_64x48_wf : sample_64x48.wf := ctor_wf DEFAULT_SSD1306_I2C_ADDR

theorem sample_8x16_wf : sample_8x16.wf := ctor_wf DEFAULT_SSD1306_I2C_ADDR

/-! ### The claims on multi-row glyphs, circles and lines -/

/-- C21 (as amended): for a selected multi-row font (`rows = height / 8 >= 2`) of width
`w > 0` and bitmap stride `mw >= w`, the header fields within their `uint8_t` and
`uint16_t` types, and a character `ch` that passes the range check, with glyph index
`g = ch - first_char`: `cpr = mw / w` is positive, so neither the division nor the
modulo by it divides by zero, and `drawChar` in normal mode returns. Its `pixel` calls
are, for `row < rows`, `i < w`, `j < 8` in this order, one call at
`((x + i) mod 256, (y + 8 * row + j) mod 256)` with the foreground colour `c` when bit
`j` of table byte `6 + start + i + row * mw` is set and the complement of `c`
otherwise, where `start = ((g / cpr) * mw * rows + (g mod cpr) * w) mod 65536`, the
variable being a `uint16_t`; no two calls have the same position. When the cell lies
inside the panel, pixel `(x + i, y + 8 * row + j)` is afterwards lit exactly when (that
bit is set) equals (`c` is white), and every panel pixel outside the cell is as
before. -/
theorem drawChar_multi_row_cell (fonts_ : font_tables) (s : ssd1306) (x y ch : Nat) (c : color)
    (table : Nat → Nat) (hfont : fonts_at fonts_ s.fontType_ = some table)
    (hrow : 2 ≤ s.fontHeight_ / 8) (hh : s.fontHeight_ < 256)
    (hw0 : 0 < s.fontWidth_) (hw : s.fontWidth_ < 256)
    (hmw : s.fontWidth_ ≤ s.fontMapWidth_) (hmw16 : s.fontMapWidth_ < 65536) (hch8 : ch < 256)
    (hlo : s.fontStartChar_ ≤ ch) (hhi : ch + 1 < s.fontStartChar_ + s.fontTotalChar_) :
    0 < s.fontMapWidth_ / s.fontWidth_ ∧
    ∃ start calls,
      start = (((ch - s.fontStartChar_) / (s.fontMapWidth_ / s.fontWidth_)) * s.fontMapWidth_
            * (s.fontHeight_ / 8)
          + ((ch - s.fontStartChar_) % (s.fontMapWidth_ / s.fontWidth_)) * s.fontWidth_) % 65536 ∧
      drawCharMultiRow_pixels fonts_ s x y (ch - s.fontStartChar_) c = Except.ok calls ∧
      drawChar fonts_ s x y ch c mode.normal = Except.ok (s.draw mode.normal calls) ∧
      calls = (List.range' 0 (s.fontHeight_ / 8)).flatMap (fun row =>
        (List.range' 0 s.fontWidth_).flatMap (fun i =>
          (List.range' 0 8).flatMap (fun j =>
            [((x + i) % 256, (y + row * 8 + j) % 256,
              if (table (6 + (start + i + row * s.fontMapWidth_)) % 256).testBit j then c
              else set_color c)]))) ∧
      (calls.map (fun p => (p.1, p.2.1))).Nodup ∧
      (s.wf → x + s.fontWidth_ ≤ 64 → y + 8 * (s.fontHeight_ / 8) ≤ 48 →
        (∀ row i j, row < s.fontHeight_ / 8 → i < s.fontWidth_ → j < 8 →
          (s.draw mode.normal calls).lit (x + i) (y + 8 * row + j)
            = ((table (6 + (start + i + row * s.fontMapWidth_)) % 256).testBit j
                == decide (c = color.white))) ∧
        (∀ a b, a < 64 → b < 48 →
          ¬ (x ≤ a ∧ a < x + s.fontWidth_ ∧ y ≤ b ∧ b < y + 8 * (s.fontHeight_ / 8)) →
          (s.draw mode.normal calls).lit a b = s.lit a b)) := by
  obtain ⟨hpix, hdraw⟩ := drawChar_multi_row_eq fonts_ s x y ch c mode.normal table hfont hrow hh
    hw0 hw hmw hmw16 hch8 hlo hhi
  refine ⟨Nat.div_pos hmw hw0, _, _, rfl, hpix, ?_, ?_, ?_, ?_⟩
  · rw [hdraw, hpix]
    rfl
  · simp only [cell_calls, bit_color_eq, toUInt8_nat, toUInt8_add_nat]
  · exact rows_positions_nodup x y s.fontWidth_ (s.fontHeight_ / 8) _ (by omega) (by omega)
  · intro hs hx hy
    have h := draw_rows s x y s.fontWidth_ (s.fontHeight_ / 8) (fun row i j =>
      bit_color (table (6 + ((((ch - s.fontStartChar_) / (s.fontMapWidth_ / s.fontWidth_))
            * s.fontMapWidth_ * (s.fontHeight_ / 8)
          + ((ch - s.fontStartChar_) % (s.fontMapWidth_ / s.fontWidth_)) * s.fontWidth_)
            % 65536
        + i + row * s.fontMapWidth_)) % 256) j c) hs hx hy
    constructor
    · intro row i j hr hi hj
      rw [h.1 row i j hr hi hj]
      exact bit_color_white _ j c
    · intro a b ha _ hout
      exact h.2 a b ha hout

/-- The hypotheses of the multi-row cell property hold for the character 65 of the
sample 8 by 16 font drawn in white at `(2, 3)`, where the cell is inside the panel. -/
theorem drawChar_multi_row_cell_witness :
    sample_8x16.wf ∧ 2 + sample_8x16.fontWidth_ ≤ 64 ∧
    3 + 8 * (sample_8x16.fontHeight_ / 8) ≤ 48 ∧
    fonts_at sample_fonts sample_8x16.fontType_ = some sample_fonts.font8x16 ∧
    2 ≤ sample_8x16.fontHeight_ / 8 ∧ sample_8x16.fontHeight_ < 256 ∧ 0 < sample_8x16.fontWidth_ ∧ sample_8x16.fontWidth_ < 256 ∧
    sample_8x16.fontWidth_ ≤ sample_8x16.fontMapWidth_ ∧ sample_8x16.fontMapWidth_ < 65536 ∧ 65 < 256 ∧
    sample_8x16.fontStartChar_ ≤ 65 ∧ 65 + 1 < sample_8x16.fontStartChar_ + sample_8x16.fontTotalChar_ ∧
    0 < sample_8x16.fontMapWidth_ / sample_8x16.fontWidth_ ∧
    ∃ start calls,
      start = (((65 - sample_8x16.fontStartChar_) / (sample_8x16.fontMapWidth_ / sample_8x16.fontWidth_)) * sample_8x16.fontMapWidth_
            * (sample_8x16.fontHeight_ / 8)
          + ((65 - sample_8x16.fontStartChar_) % (sample_8x16.fontMapWidth_ / sample_8x16.fontWidth_)) * sample_8x16.fontWidth_) % 65536 ∧
      drawCharMultiRow_pixels sample_fonts sample_8x16 2 3 (65 - sample_8x16.fontStartChar_) color.white = Except.ok calls ∧
      drawChar sample_fonts sample_8x16 2 3 65 color.white mode.normal = Except.ok (sample_8x16.draw mode.normal calls) ∧
      calls = (List.range' 0 (sample_8x16.fontHeight_ / 8)).flatMap (fun row =>
        (List.range' 0 sample_8x16.fontWidth_).flatMap (fun i =>
          (List.range' 0 8).flatMap (fun j =>
            [((2 + i) % 256, (3 + row * 8 + j) % 256,
              if (sample_fonts.font8x16 (6 + (start + i + row * sample_8x16.fontMapWidth_)) % 256).testBit j then color.white
              else set_color color.white)]))) ∧
      (calls.map (fun p => (p.1, p.2.1))).Nodup ∧
      (sample_8x16.wf → 2 + sample_8x16.fontWidth_ ≤ 64 → 3 + 8 * (sample_8x16.fontHeight_ / 8) ≤ 48 →
        (∀ row i j, row < sample_8x16.fontHeight_ / 8 → i < sample_8x16.fontWidth_ → j < 8 →
          (sample_8x16.draw mode.normal calls).lit (2 + i) (3 + 8 * row + j)
            = ((sample_fonts.font8x16 (6 + (start + i + row * sample_8x16.fontMapWidth_)) % 256).testBit j
                == decide (color.white = color.white))) ∧
        (∀ a b, a < 64 → b < 48 →
          ¬ (2 ≤ a ∧ a < 2 + sample_8x16.fontWidth_ ∧ 3 ≤ b ∧ b < 3 + 8 * (sample_8x16.fontHeight_ / 8)) →
          (sample_8x16.draw mode.normal calls).lit a b = sample_8x16.lit a b)) :=
  ⟨sample_8x16_wf, by decide, by decide, rfl, by decide, by decide, by decide, by decide,
    by decide, by decide, by decide, by decide, by decide,
    drawChar_multi_row_cell sample_fonts sample_8x16 2 3 65 color.white sample_fonts.font8x16 rfl
      (by decide) (by decide) (by decide) (by decide) (by decide) (by decide) (by decide)
      (by decide) (by decide)⟩

/-- With a font of 64 by 48 glyphs in a bitmap 64 bytes wide, selected by
`fontType(1)`, glyph 171 has `start = 171 * 64 * 6 = 65664` by the formula without
the reduction, and bit 0 of table byte `6 + 65664` is clear, which would give pixel
`(0, 0)` the background colour. `drawChar(0, 0, 171, white, normal)` on the cleared
panel lights it: the 16-bit start position is `65664 - 65536 = 128`, and bit 0 of
table byte `6 + 128` is set. -/
theorem drawChar_multi_row_counterexample :
    fontType panel_fonts (ctor DEFAULT_SSD1306_I2C_ADDR) 1 = Except.ok (1, sample_64x48) ∧
    fonts_at panel_fonts sample_64x48.fontType_ = some panel_fonts.font8x16 ∧
    sample_64x48.wf ∧ 2 ≤ sample_64x48.fontHeight_ / 8 ∧ 0 < sample_64x48.fontWidth_ ∧
    sample_64x48.fontWidth_ ≤ sample_64x48.fontMapWidth_ ∧
    sample_64x48.fontStartChar_ ≤ 171 ∧
    171 + 1 < sample_64x48.fontStartChar_ + sample_64x48.fontTotalChar_ ∧
    ((171 - sample_64x48.fontStartChar_) / (sample_64x48.fontMapWidth_ / sample_64x48.fontWidth_))
        * sample_64x48.fontMapWidth_ * (sample_64x48.fontHeight_ / 8)
      + ((171 - sample_64x48.fontStartChar_)
          % (sample_64x48.fontMapWidth_ / sample_64x48.fontWidth_)) * sample_64x48.fontWidth_
      = 65664 ∧
    (panel_fonts.font8x16 (6 + 65664 + 0 + 0 * sample_64x48.fontMapWidth_) % 256).testBit 0
      = false ∧
    sample_64x48.lit 0 0 = false ∧
    ∃ t, drawChar panel_fonts sample_64x48 0 0 171 color.white mode.normal = Except.ok t ∧
      t.lit 0 0 = true := by
  obtain ⟨hpix, hdraw⟩ := drawChar_multi_row_eq panel_fonts sample_64x48 0 0 171 color.white
    mode.normal panel_fonts.font8x16 rfl (by decide) (by decide) (by decide) (by decide)
    (by decide) (by decide) (by decide) (by decide) (by decide)
  refine ⟨rfl, rfl, sample_64x48_wf, by decide, by decide, by decide, by decide, by decide,
    by decide, by decide, ?_, _, by rw [hdraw, hpix]; rfl, ?_⟩
  · simp only [lit, sample_64x48, ctor_screen_buffer]
    rfl
  · have h := (draw_rows sample_64x48 0 0 sample_64x48.fontWidth_ (sample_64x48.fontHeight_ / 8)
      (fun row i j => bit_color (panel_fonts.font8x16 (6 +
        ((((171 - sample_64x48.fontStartChar_)
              / (sample_64x48.fontMapWidth_ / sample_64x48.fontWidth_))
            * sample_64x48.fontMapWidth_ * (sample_64x48.fontHeight_ / 8)
          + ((171 - sample_64x48.fontStartChar_)
              % (sample_64x48.fontMapWidth_ / sample_64x48.fontWidth_))
            * sample_64x48.fontWidth_) % 65536
        + i + row * sample_64x48.fontMapWidth_)) % 256) j color.white)
      sample_64x48_wf (by decide) (by decide)).1 0 0 0 (by decide) (by decide) (by decide)
    exact h.trans (by decide)

/-- C22 (the code at the failing input): the centre `(10, 2)` is inside the panel and
the radius 3 is at most 63. `circle` calls `pixel(10, 5)`, a position inside the panel,
and `circleFill` makes no call in column 10: its centre-column loop starts at
`(uint8_t)(2 - 3) = 255`, above the bound `2 + 3`, so its body never runs. On the
cleared panel the outline in white lights `(10, 5)` and the filled circle leaves it
dark. -/
theorem circleFill_misses_outline :
    10 < 64 ∧ 2 < 48 ∧ 3 ≤ 63 ∧ 10 < 64 ∧ 5 < 48 ∧
    circle_pixels 10 2 3 = Except.ok
      [(10, 5), (10, 255), (13, 2), (7, 2), (11, 5), (9, 5), (11, 255), (9, 255), (13, 3), (7, 3),
       (13, 1), (7, 1), (12, 4), (8, 4), (12, 0), (8, 0), (12, 4), (8, 4), (12, 0), (8, 0)] ∧
    circleFill_pixels 10 2 3 = Except.ok
      [(13, 1), (7, 1), (13, 2), (7, 2), (13, 3), (7, 3), (12, 0), (8, 0), (12, 1), (8, 1),
       (12, 2), (8, 2), (12, 3), (8, 3), (12, 4), (8, 4), (12, 0), (8, 0), (12, 1), (8, 1),
       (12, 2), (8, 2), (12, 3), (8, 3), (12, 4), (8, 4)] ∧
    (∃ t, (ctor 60).circle 10 2 3 color.white mode.normal = Except.ok t ∧ t.lit 10 5 = true) ∧
    (∃ u, (ctor 60).circleFill 10 2 3 color.white mode.normal = Except.ok u ∧
      u.lit 10 5 = false) := by
  refine ⟨by decide, by decide, by decide, by decide, by decide, circle_pixels_10_2_3,
    circleFill_pixels_10_2_3, ?_, ?_⟩
  · refine ⟨_, circle_of_pixels _ _ _ _ _ _ _ circle_pixels_10_2_3, ?_⟩
    exact draw_normal_lit 10 5 color.white (by decide) (by decide) _ (ctor 60) (ctor_wf 60)
      (by decide) (Or.inr (by decide))
  · refine ⟨_, circleFill_of_pixels _ _ _ _ _ _ circleFill_pixels_10_2_3, ?_⟩
    rw [draw_unchanged mode.normal 10 5 (by decide) _ (ctor 60) (ctor_wf 60) (by decide)]
    simp only [lit, ctor_screen_buffer]
    rfl

/-- C23: for every radius `r <= 63`, the run of the midpoint algorithm in unbounded
integers from `f = 1 - r`, `ddF_x = 1`, `ddF_y = -2 * r`, `x1 = 0`, `y1 = r` ends after
at most `r` iterations; the initial values, the values of `f`, `ddF_x`, `ddF_y`, `x1`
and `y1` after every iteration, and the value of `f` between its two updates, all lie
in `[-128, 127]`; and for every centre the loop of `circle`, with its `int8_t`
variables, makes exactly the `pixel` calls of that run and exits within `r + 1` tests
of its condition, so that `circle` makes the four axis calls followed by them. -/
theorem circle_int8_refines_midpoint (r : Nat) (hr : r ≤ 63) :
    ∃ steps, midpoint_circle r = some steps ∧ steps.length ≤ r ∧
      (in_int8 (1 - (r : Int)) = true ∧ in_int8 (-2 * (r : Int)) = true ∧
        in_int8 (r : Int) = true) ∧
      (∀ st ∈ steps, step_in_int8 st = true) ∧
      ∀ x y,
        circle_loop x y (r + 1) (toInt8 (1 - toInt8 r)) 1 (toInt8 (-2 * (r : Int))) 0 (toInt8 r)
          = Except.ok (steps.flatMap (fun st => octant_points x y st.2.2.2.1 st.2.2.2.2.1)) ∧
        circle_pixels x y r
          = Except.ok ([(x, toUInt8 ((y : Int) + r)), (x, toUInt8 ((y : Int) - r)),
              (toUInt8 ((x : Int) + r), y), (toUInt8 ((x : Int) - r), y)]
            ++ steps.flatMap (fun st => octant_points x y st.2.2.2.1 st.2.2.2.2.1)) := by
  have hfit := midpoint_fits_small r (by omega)
  unfold midpoint_fits at hfit
  cases hm : midpoint_circle r with
  | none => rw [hm] at hfit; cases hfit
  | some steps =>
    rw [hm] at hfit
    simp only [Bool.and_eq_true, decide_eq_true_eq] at hfit
    have h1 : in_int8 (1 - (r : Int)) = true := by
      simp only [in_int8, decide_eq_true_eq]; omega
    have h2 : in_int8 (-2 * (r : Int)) = true := by
      simp only [in_int8, decide_eq_true_eq]; omega
    have h3 : in_int8 (r : Int) = true := by
      simp only [in_int8, decide_eq_true_eq]; omega
    have e3 : toInt8 (r : Int) = r := toInt8_of_in_int8 _ h3
    have e1 : toInt8 (1 - toInt8 (r : Int)) = 1 - (r : Int) := by
      rw [e3]; exact toInt8_of_in_int8 _ h1
    have e2 : toInt8 (-2 * (r : Int)) = -2 * (r : Int) := toInt8_of_in_int8 _ h2
    refine ⟨steps, rfl, hfit.1, ⟨h1, h2, h3⟩, ?_, ?_⟩
    · intro st hst
      exact List.all_eq_true.1 hfit.2 st hst
    · intro x y
      have hloop := circle_loop_refines x y (r + 1) _ _ _ _ _ steps hm hfit.2
      have hloop256 := circle_loop_refines x y (r + 1 + (255 - r)) _ _ _ _ _ steps
        (midpoint_steps_mono (r + 1) (255 - r) _ _ _ _ _ steps hm) hfit.2
      have h256 : r + 1 + (255 - r) = 256 := by omega
      rw [h256] at hloop256
      refine ⟨?_, ?_⟩
      · rw [e1, e2, e3]
        exact hloop
      · unfold circle_pixels
        simp only [e3, toInt8_of_in_int8 _ h1, e2, hloop256]

/-- The radius 3 is at most 63, and the refinement holds for it. -/
theorem circle_int8_refines_midpoint_witness :
    3 ≤ 63 ∧
    ∃ steps, midpoint_circle 3 = some steps ∧ steps.length ≤ 3 ∧
      (in_int8 (1 - ((3 : Nat) : Int)) = true ∧ in_int8 (-2 * ((3 : Nat) : Int)) = true ∧
        in_int8 ((3 : Nat) : Int) = true) ∧
      (∀ st ∈ steps, step_in_int8 st = true) ∧
      ∀ x y,
        circle_loop x y (3 + 1) (toInt8 (1 - toInt8 (3 : Nat))) 1
            (toInt8 (-2 * ((3 : Nat) : Int))) 0 (toInt8 (3 : Nat))
          = Except.ok (steps.flatMap (fun st => octant_points x y st.2.2.2.1 st.2.2.2.2.1)) ∧
        circle_pixels x y 3
          = Except.ok ([(x, toUInt8 ((y : Int) + (3 : Nat))), (x, toUInt8 ((y : Int) - (3 : Nat))),
              (toUInt8 ((x : Int) + (3 : Nat)), y), (toUInt8 ((x : Int) - (3 : Nat)), y)]
            ++ steps.flatMap (fun st => octant_points x y st.2.2.2.1 st.2.2.2.2.1)) :=
  ⟨by decide, circle_int8_refines_midpoint 3 (by decide)⟩

/-- C24: for endpoints inside the panel, `line` returns after exactly
`max(|x1 - x0|, |y1 - y0|)` `pixel` calls. When `|y1 - y0| <= |x1 - x0|` their `x`
coordinates are, in order, the values from the smaller of `x0` and `x1` up to but not
including the larger, and consecutive calls differ in `y` by at most one; when
`|x1 - x0| < |y1 - y0|` the same holds with `x` and `y` exchanged. Every call lies
inside the bounding box of the endpoints, and every value assigned to the `int8_t`
error term lies in `[-128, 127]` before it is narrowed. -/
theorem line_writes_major_axis (x0 y0 x1 y1 : Nat) (hx0 : x0 < 64) (hy0 : y0 < 48)
    (hx1 : x1 < 64) (hy1 : y1 < 48) :
    ∃ ps, line_pixels x0 y0 x1 y1 = some ps ∧
      (∀ (s : ssd1306) (c : color) (m : mode),
        s.line x0 y0 x1 y1 c m = some (ps.foldl (fun t p => t.pixel p.1 p.2 c m) s)) ∧
      ps.length = max (Int.natAbs ((x1 : Int) - x0)) (Int.natAbs ((y1 : Int) - y0)) ∧
      (Int.natAbs ((y1 : Int) - y0) ≤ Int.natAbs ((x1 : Int) - x0) →
        ps.map Prod.fst = List.range' (min x0 x1) (max x0 x1 - min x0 x1) ∧
        List.Chain' (fun a b : Nat => b ≤ a + 1 ∧ a ≤ b + 1) (ps.map Prod.snd)) ∧
      (Int.natAbs ((x1 : Int) - x0) < Int.natAbs ((y1 : Int) - y0) →
        ps.map Prod.snd = List.range' (min y0 y1) (max y0 y1 - min y0 y1) ∧
        List.Chain' (fun a b : Nat => b ≤ a + 1 ∧ a ≤ b + 1) (ps.map Prod.fst)) ∧
      (∀ p ∈ ps, min x0 x1 ≤ p.1 ∧ p.1 ≤ max x0 x1 ∧ min y0 y1 ≤ p.2 ∧ p.2 ≤ max y0 y1) ∧
      (∀ v ∈ line_errs x0 y0 x1 y1, -128 ≤ v ∧ v ≤ 127) := by
  obtain ⟨ps, hps, hflat, hsteep, hbox, herrs⟩ := line_cases x0 y0 x1 y1 hx0 hy0 hx1 hy1
  refine ⟨ps, hps, ?_, ?_, hflat, hsteep, hbox, herrs⟩
  · intro s c m
    simp only [line, hps, Option.map_some']
  · by_cases hs : Int.natAbs ((x1 : Int) - x0) < Int.natAbs ((y1 : Int) - y0)
    · have h := congrArg List.length (hsteep hs).1
      rw [List.length_map, List.length_range'] at h
      omega
    · have h := congrArg List.length (hflat (by omega)).1
      rw [List.length_map, List.length_range'] at h
      omega

/-- The endpoints `(1, 2)` and `(9, 5)` are inside the panel, and the line between
them has the stated calls. -/
theorem line_writes_major_axis_witness :
    (1 : Nat) < 64 ∧ (2 : Nat) < 48 ∧ (9 : Nat) < 64 ∧ (5 : Nat) < 48 ∧
    ∃ ps, line_pixels 1 2 9 5 = some ps ∧
      (∀ (s : ssd1306) (c : color) (m : mode),
        s.line 1 2 9 5 c m = some (ps.foldl (fun t p => t.pixel p.1 p.2 c m) s)) ∧
      ps.length = max (Int.natAbs (((9 : Nat) : Int) - (1 : Nat)))
        (Int.natAbs (((5 : Nat) : Int) - (2 : Nat))) ∧
      (Int.natAbs (((5 : Nat) : Int) - (2 : Nat)) ≤ Int.natAbs (((9 : Nat) : Int) - (1 : Nat)) →
        ps.map Prod.fst = List.range' (min 1 9) (max 1 9 - min 1 9) ∧
        List.Chain' (fun a b : Nat => b ≤ a + 1 ∧ a ≤ b + 1) (ps.map Prod.snd)) ∧
      (Int.natAbs (((9 : Nat) : Int) - (1 : Nat)) < Int.natAbs (((5 : Nat) : Int) - (2 : Nat)) →
        ps.map Prod.snd = List.range' (min 2 5) (max 2 5 - min 2 5) ∧
        List.Chain' (fun a b : Nat => b ≤ a + 1 ∧ a ≤ b + 1) (ps.map Prod.fst)) ∧
      (∀ p ∈ ps, min 1 9 ≤ p.1 ∧ p.1 ≤ max 1 9 ∧ min 2 5 ≤ p.2 ∧ p.2 ≤ max 2 5) ∧
      (∀ v ∈ line_errs 1 2 9 5, -128 ≤ v ∧ v ≤ 127) :=
  ⟨by decide, by decide, by decide, by decide,
    line_writes_major_axis 1 2 9 5 (by decide) (by decide) (by decide) (by decide)⟩

end ssd1306
end embdrv
